import Mathlib

/-!
Verification of the mtkl floor-plan search engine against its specification.

The Python sources under scrutiny are core_data_structures.py,
monte_carlo_engine.py and evaluation_system.py.  The embedding conventions:

* Python floats are modeled as exact rationals.
* The module-level random source is modeled by explicit oracle streams:
  a stream of outputs of random.random (rationals in [0,1), passed as a
  hypothesis where needed) and a stream of naturals for the integer draws
  used by shuffle / choice / sample.
* math-style square roots (the Python expression x ** 0.5) are modeled by
  an explicit routine sq, quantified over in the theorems; the only facts
  ever needed about it are totality and positivity on positive inputs.
* CPython object identifiers (the builtin id, used by Room) are modeled by
  an explicit allocation stream of naturals.
* A Python expression a / b raises ZeroDivisionError when b = 0; wherever a
  denominator can be zero we embed the division as pydiv, returning none in
  exactly that case, so that a returned none models a raised exception.
-/

/-- Checked division: models a Python float division, which raises
ZeroDivisionError exactly when the denominator is zero. -/
def pydiv (a b : ℚ) : Option ℚ :=
  if b = 0 then none else some (a / b)

/-- Truncation toward zero, the behavior of the Python builtin int on a float. -/
def pytrunc (q : ℚ) : ℤ :=
  if 0 ≤ q then ⌊q⌋ else ⌈q⌉

/-- Option-valued map over a list, failing when any element fails; models a
Python loop whose body may raise. -/
def omap (f : α → Option β) : List α → Option (List β)
  | [] => some []
  | a :: l => (f a).bind fun b => (omap f l).map (b :: ·)

theorem omap_isSome {f : α → Option β} {l : List α}
    (h : ∀ a ∈ l, (f a).isSome) : (omap f l).isSome := by
  induction l with
  | nil => simp [omap]
  | cons a l ih =>
    have ha := h a (List.mem_cons_self a l)
    obtain ⟨b, hb⟩ := Option.isSome_iff_exists.mp ha
    have hl := ih fun x hx => h x (List.mem_cons_of_mem a hx)
    obtain ⟨bs, hbs⟩ := Option.isSome_iff_exists.mp hl
    simp [omap, hb, hbs]

theorem omap_eq_some_length {f : α → Option β} {l : List α} {ys : List β}
    (h : omap f l = some ys) : ys.length = l.length := by
  induction l generalizing ys with
  | nil => simp [omap] at h; simp [← h]
  | cons a l ih =>
    simp only [omap, Option.bind_eq_some, Option.map_eq_some'] at h
    obtain ⟨b, _, bs, hbs, rfl⟩ := h
    simp [ih hbs]

/-- Two-dimensional point (core_data_structures.py, class Point). -/
structure Point where
  x : ℚ
  y : ℚ
deriving DecidableEq

/-- Point.distance_to.  The Python source computes (dx^2 + dy^2) ** 0.5; the
square-root routine is passed explicitly as sq. -/
def Point.distance_to (sq : ℚ → ℚ) (p other : Point) : ℚ :=
  sq ((p.x - other.x) ^ 2 + (p.y - other.y) ^ 2)

/-- Axis-aligned rectangle (core_data_structures.py, class Rectangle). -/
structure Rectangle where
  x : ℚ
  y : ℚ
  width : ℚ
  height : ℚ
deriving DecidableEq

def Rectangle.left (r : Rectangle) : ℚ := r.x

def Rectangle.right (r : Rectangle) : ℚ := r.x + r.width

def Rectangle.top (r : Rectangle) : ℚ := r.y

def Rectangle.bottom (r : Rectangle) : ℚ := r.y + r.height

def Rectangle.center (r : Rectangle) : Point :=
  ⟨r.x + r.width / 2, r.y + r.height / 2⟩

def Rectangle.area (r : Rectangle) : ℚ := r.width * r.height

/-- Rectangle.contains_point: closed bounds, inclusive of edges. -/
def Rectangle.contains_point (r : Rectangle) (p : Point) : Bool :=
  decide (r.left ≤ p.x) && decide (p.x ≤ r.right) &&
  decide (r.top ≤ p.y) && decide (p.y ≤ r.bottom)

/-- Rectangle.intersects: open-interval overlap. -/
def Rectangle.intersects (r other : Rectangle) : Bool :=
  !(decide (r.right ≤ other.left) || decide (r.left ≥ other.right) ||
    decide (r.bottom ≤ other.top) || decide (r.top ≥ other.bottom))

/-- A point lying exactly on one of the four edges of a rectangle
(corners included). -/
def Rectangle.onEdge (r : Rectangle) (p : Point) : Prop :=
  ((p.x = r.left ∨ p.x = r.right) ∧ r.top ≤ p.y ∧ p.y ≤ r.bottom) ∨
  ((p.y = r.top ∨ p.y = r.bottom) ∧ r.left ≤ p.x ∧ p.x ≤ r.right)

instance (r : Rectangle) (p : Point) : Decidable (r.onEdge p) := by
  unfold Rectangle.onEdge; infer_instance

/-- Room type tags (core_data_structures.py, enum RoomType). -/
inductive RoomType where
  | living_room
  | bedroom
  | kitchen
  | bathroom
  | dining_room
  | study
  | balcony
  | storage
  | hallway
deriving DecidableEq

/-- Window orientations (core_data_structures.py, enum Orientation, renamed since Mathlib already has an Orientation). -/
inductive Orient where
  | north
  | south
  | east
  | west
deriving DecidableEq

/-- Furniture item; only the fields read by the engine are kept
(core_data_structures.py, class Furniture). -/
structure Furniture where
  width : ℚ
  height : ℚ
  can_rotate : Bool := true
  position : Point := ⟨0, 0⟩
  is_rotated : Bool := false
  is_placed : Bool := false
deriving DecidableEq

def Furniture.current_width (f : Furniture) : ℚ :=
  if f.is_rotated then f.height else f.width

def Furniture.current_height (f : Furniture) : ℚ :=
  if f.is_rotated then f.width else f.height

/-- Room (core_data_structures.py, class Room).  The id field holds the value
of the CPython builtin id at creation, drawn from an allocation stream. -/
structure Room where
  room_type : RoomType
  bounds : Rectangle
  min_area : ℚ := 0
  orientation : Option Orient := none
  furniture : List Furniture := []
  doors : List Rectangle := []
  windows : List Rectangle := []
  id : ℕ
deriving DecidableEq

/-- Room.__init__: a fresh room starts with empty furniture, door and window
lists; its id is the address the allocator hands out. -/
def Room.create (t : RoomType) (b : Rectangle) (ma : ℚ) (ori : Option Orient)
    (addr : ℕ) : Room :=
  { room_type := t, bounds := b, min_area := ma, orientation := ori, id := addr }

def Room.area (r : Room) : ℚ := r.bounds.area

def Room.used_area (r : Room) : ℚ :=
  (r.furniture.filter (·.is_placed)).foldl
    (fun acc f => acc + f.current_width * f.current_height) 0

/-- Room.utilization_rate, guarded in the source by area > 0. -/
def Room.utilization_rate (r : Room) : ℚ :=
  if 0 < r.area then r.used_area / r.area else 0

/-- Layout (core_data_structures.py, class Layout).  The free-form metadata
dict is modeled as an association list. -/
structure Layout where
  bounds : Rectangle
  rooms : List Room := []
  hallways : List Rectangle := []
  fitness_score : ℚ := 0
  generation_id : ℕ := 0
  metadata : List (String × ℚ) := []
deriving DecidableEq

def Layout.total_area (L : Layout) : ℚ := L.bounds.area

def Layout.room_area (L : Layout) : ℚ :=
  (L.rooms.map Room.area).sum

def Layout.hallway_area (L : Layout) : ℚ :=
  (L.hallways.map Rectangle.area).sum

/-- Layout.utilization_rate, guarded in the source by total_area > 0. -/
def Layout.utilization_rate (L : Layout) : ℚ :=
  if 0 < L.total_area then (L.room_area + L.hallway_area) / L.total_area else 0

def Layout.add_room (L : Layout) (r : Room) : Layout :=
  { L with rooms := L.rooms ++ [r] }

def Layout.add_hallway (L : Layout) (h : Rectangle) : Layout :=
  { L with hallways := L.hallways ++ [h] }

def Layout.get_rooms_by_type (L : Layout) (t : RoomType) : List Room :=
  L.rooms.filter (fun r => r.room_type == t)

/-- The for-loop inside Layout.copy: each source room yields a freshly
constructed Room (new id, empty furniture / door / window lists) with copied
bounds, min_area and the orientation tag. -/
def copyRooms (ids : ℕ → ℕ) : List Room → ℕ → List Room
  | [], _ => []
  | r :: rs, k =>
    Room.create r.room_type ⟨r.bounds.x, r.bounds.y, r.bounds.width, r.bounds.height⟩
      r.min_area r.orientation (ids k) :: copyRooms ids rs (k + 1)

/-- Layout.copy: a new Layout (fitness_score 0, generation_id 0) holding fresh
rooms with copied bounds, copied hallway rectangles and a copied metadata
dict. -/
def Layout.copy (L : Layout) (ids : ℕ → ℕ) : Layout :=
  { bounds := ⟨L.bounds.x, L.bounds.y, L.bounds.width, L.bounds.height⟩
    rooms := copyRooms ids L.rooms 0
    hallways := L.hallways.map fun h => ⟨h.x, h.y, h.width, h.height⟩
    fitness_score := 0
    generation_id := 0
    metadata := L.metadata }

/-- C3: two rectangles that share a boundary coordinate (one rectangle's right
edge equal to the other's left, or one's bottom equal to the other's top) do
not intersect, and a point lying exactly on a rectangle's edge (corners
included) is contained by contains_point, for rectangles of non-negative
width and height. -/
theorem C3_edge_touch_semantics :
    (∀ r1 r2 : Rectangle,
      r1.right = r2.left ∨ r2.right = r1.left ∨
      r1.bottom = r2.top ∨ r2.bottom = r1.top →
      r1.intersects r2 = false) ∧
    (∀ (r : Rectangle) (p : Point), 0 ≤ r.width → 0 ≤ r.height →
      r.onEdge p → r.contains_point p = true) := by
  constructor
  · intro r1 r2 h
    simp only [Rectangle.intersects, Bool.not_eq_false', Bool.or_eq_true,
      decide_eq_true_eq, ge_iff_le]
    rcases h with h | h | h | h
    · exact Or.inl (Or.inl (Or.inl (le_of_eq h)))
    · exact Or.inl (Or.inl (Or.inr (le_of_eq h)))
    · exact Or.inl (Or.inr (le_of_eq h))
    · exact Or.inr (le_of_eq h)
  · intro r p hw hh hedge
    have hlr : r.left ≤ r.right := by
      simp only [Rectangle.left, Rectangle.right]; linarith
    have htb : r.top ≤ r.bottom := by
      simp only [Rectangle.top, Rectangle.bottom]; linarith
    simp only [Rectangle.contains_point, Bool.and_eq_true, decide_eq_true_eq]
    rcases hedge with ⟨hx, hy1, hy2⟩ | ⟨hy, hx1, hx2⟩
    · rcases hx with hx | hx
      · exact ⟨⟨⟨le_of_eq hx.symm, hx ▸ hlr⟩, hy1⟩, hy2⟩
      · exact ⟨⟨⟨hx ▸ hlr, le_of_eq hx⟩, hy1⟩, hy2⟩
    · rcases hy with hy | hy
      · exact ⟨⟨⟨hx1, hx2⟩, le_of_eq hy.symm⟩, hy ▸ htb⟩
      · exact ⟨⟨⟨hx1, hx2⟩, hy ▸ htb⟩, le_of_eq hy⟩

/-- C3 witness: the edge-touching and on-edge facts at concrete rectangles. -/
theorem C3_edge_touch_semantics_witness :
    (Rectangle.mk 0 0 2 2).intersects (Rectangle.mk 2 0 2 2) = false ∧
    (Rectangle.mk 0 0 2 2).contains_point ⟨2, 1⟩ = true :=
  ⟨C3_edge_touch_semantics.1 ⟨0, 0, 2, 2⟩ ⟨2, 0, 2, 2⟩
      (Or.inl (by norm_num [Rectangle.right, Rectangle.left])),
   C3_edge_touch_semantics.2 ⟨0, 0, 2, 2⟩ ⟨2, 1⟩ (by norm_num) (by norm_num)
     (Or.inl ⟨Or.inr (by norm_num [Rectangle.left, Rectangle.right]),
       by norm_num [Rectangle.top], by norm_num [Rectangle.bottom]⟩)⟩

/-- Evaluation weights and parameters with their source defaults
(evaluation_system.py, EvaluationConfig). -/
structure EvaluationConfig where
  space_efficiency_weight : ℚ := 0.25
  lighting_weight : ℚ := 0.20
  ventilation_weight : ℚ := 0.15
  circulation_weight : ℚ := 0.20
  comfort_weight : ℚ := 0.20
  min_room_efficiency : ℚ := 0.4
  ideal_utilization_rate : ℚ := 0.75
  corridor_penalty_factor : ℚ := 0.8
  max_depth_from_window : ℚ := 6.0
  window_area_ratio : ℚ := 0.15
  light_decay_factor : ℚ := 0.1
  min_ventilation_path : ℚ := 2.0
  cross_ventilation_bonus : ℚ := 1.2
  dead_space_penalty : ℚ := 0.5
  max_circulation_distance : ℚ := 15.0
  intersection_penalty : ℚ := 0.3
  connection_bonus : ℚ := 0.2
  noise_reduction_factor : ℚ := 0.8
  privacy_weight : ℚ := 0.5
  social_area_bonus : ℚ := 1.1
deriving DecidableEq

/-- SpaceEfficiencyEvaluator._evaluate_utilization_rate; dividing by the
configured ideal utilization rate. -/
def evalUtilizationRate (cfg : EvaluationConfig) (rate : ℚ) : Option ℚ :=
  (pydiv |rate - cfg.ideal_utilization_rate| cfg.ideal_utilization_rate).map
    fun d => max 0 (1 - d)

/-- SpaceEfficiencyEvaluator._evaluate_room_shape. -/
def evalRoomShape (aspect : ℚ) : ℚ :=
  if 0.8 ≤ aspect ∧ aspect ≤ 1.25 then 1
  else if 0.6 ≤ aspect ∧ aspect ≤ 1.67 then 0.8
  else 0.5

/-- The area_standards table of _evaluate_area_appropriateness, with the
(5, 30) default for types missing from the table. -/
def areaStandards : RoomType → ℚ × ℚ
  | .living_room => (15, 40)
  | .bedroom => (8, 25)
  | .kitchen => (6, 20)
  | .bathroom => (3, 12)
  | .dining_room => (10, 25)
  | .study => (6, 18)
  | _ => (5, 30)

/-- SpaceEfficiencyEvaluator._evaluate_area_appropriateness; both divisions
are by table entries, which are nonzero constants. -/
def evalAreaAppropriateness (room : Room) : ℚ :=
  let s := areaStandards room.room_type
  if s.1 ≤ room.area ∧ room.area ≤ s.2 then 1
  else if room.area < s.1 then room.area / s.1
  else max 0 (1 - (room.area - s.2) / s.2)

/-- Per-room body of _evaluate_room_efficiency; the aspect division by the
room height is unguarded in the source. -/
def roomEfficiencyScore (room : Room) : Option ℚ :=
  (pydiv room.bounds.width room.bounds.height).map fun aspect =>
    (evalRoomShape aspect + room.utilization_rate + evalAreaAppropriateness room) / 3

/-- SpaceEfficiencyEvaluator._evaluate_room_efficiency. -/
def evalRoomEfficiency (L : Layout) : Option ℚ :=
  if L.rooms = [] then some 0
  else (omap roomEfficiencyScore L.rooms).map fun scores =>
    scores.sum / (L.rooms.length : ℚ)

/-- SpaceEfficiencyEvaluator._evaluate_hallway_efficiency; when the hallway
list is nonempty the hallway-to-total area division is unguarded. -/
def evalHallwayEfficiency (L : Layout) : Option ℚ :=
  if L.hallways = [] then some 1
  else (pydiv L.hallway_area L.total_area).map fun hallway_ratio =>
    if hallway_ratio < 0.05 then 1
    else if hallway_ratio < 0.1 then 0.8
    else if hallway_ratio < 0.15 then 0.6
    else 0.3

/-- SpaceEfficiencyEvaluator.evaluate: 0.3 / 0.4 / 0.3 blend, added in
source order. -/
def spaceEfficiencyEvaluate (cfg : EvaluationConfig) (L : Layout) : Option ℚ := do
  let u ← evalUtilizationRate cfg L.utilization_rate
  let re ← evalRoomEfficiency L
  let he ← evalHallwayEfficiency L
  pure (u * 0.3 + re * 0.4 + he * 0.3)

/-- LightingEvaluator._evaluate_window_coverage: wall areas from perimeters
at an assumed storey height of 2.8; guarded against zero wall area, then
divided by the configured window-to-wall target. -/
def evalWindowCoverage (cfg : EvaluationConfig) (L : Layout) : Option ℚ :=
  if L.rooms = [] then some 0
  else
    let total_wall_area :=
      (L.rooms.map fun r => 2 * (r.bounds.width + r.bounds.height) * 2.8).sum
    let total_window_area :=
      (L.rooms.map fun r => (r.windows.map fun w => w.width * w.height).sum).sum
    if total_wall_area = 0 then some 0
    else
      (pydiv |total_window_area / total_wall_area - cfg.window_area_ratio|
        cfg.window_area_ratio).map fun d => max 0 (1 - d)

/-- Window center as computed inline in _evaluate_lighting_uniformity. -/
def windowCenter (w : Rectangle) : Point := ⟨w.x + w.width / 2, w.y + w.height / 2⟩

/-- Per-room body of _evaluate_lighting_uniformity: a windowless room scores
a flat 0.3; otherwise the distance from the room center to the nearest
window center is normalized by the configured maximum window depth and
discounted by the area factor min(1, 30 / area), whose division is
unguarded. -/
def uniformityRoomScore (cfg : EvaluationConfig) (sq : ℚ → ℚ) (room : Room) :
    Option ℚ :=
  match room.windows with
  | [] => some 0.3
  | w :: ws =>
    let c := room.bounds.center
    let min_distance :=
      (ws.map fun win => Point.distance_to sq c (windowCenter win)).foldl min
        (Point.distance_to sq c (windowCenter w))
    (pydiv min_distance cfg.max_depth_from_window).bind fun ds =>
      (pydiv 30 room.area).map fun af =>
        max 0 (1 - ds) * min 1 af

/-- LightingEvaluator._evaluate_lighting_uniformity. -/
def evalLightingUniformity (cfg : EvaluationConfig) (sq : ℚ → ℚ) (L : Layout) :
    Option ℚ :=
  (omap (uniformityRoomScore cfg sq) L.rooms).map fun room_scores =>
    if room_scores = [] then 0 else room_scores.sum / (room_scores.length : ℚ)

/-- Wall tag of a window inferred from its position, the if/elif chain used
by both _evaluate_lighting_sources and _evaluate_cross_ventilation
(threshold 0.1); west/east/north/south stand for the left/right/top/bottom
walls.  A window touching no wall yields none. -/
def windowOrient (room : Room) (w : Rectangle) : Option Orient :=
  if w.x ≤ room.bounds.x + 0.1 then some .west
  else if w.x + w.width ≥ room.bounds.right - 0.1 then some .east
  else if w.y ≤ room.bounds.y + 0.1 then some .north
  else if w.y + w.height ≥ room.bounds.bottom - 0.1 then some .south
  else none

/-- LightingEvaluator._evaluate_lighting_sources: orientation diversity bonus
over the important room types, normalized by len(important_rooms) * 2 = 6. -/
def evalLightingSources (L : Layout) : ℚ :=
  let important : List RoomType := [.living_room, .bedroom, .kitchen]
  let score := important.foldl (fun acc t =>
    (L.get_rooms_by_type t).foldl (fun acc2 room =>
      if room.windows = [] then acc2
      else
        let orients := (room.windows.filterMap (windowOrient room)).dedup
        acc2 + min 1 ((orients.length : ℚ) / 2)) acc) 0
  score / 6

/-- LightingEvaluator.evaluate: 0.3 / 0.4 / 0.3 blend in source order. -/
def lightingEvaluate (cfg : EvaluationConfig) (sq : ℚ → ℚ) (L : Layout) :
    Option ℚ := do
  let wc ← evalWindowCoverage cfg L
  let un ← evalLightingUniformity cfg sq L
  pure (wc * 0.3 + un * 0.4 + evalLightingSources L * 0.3)

/-- Per-room opening count score of _evaluate_ventilation_paths. -/
def ventilationPathScore (room : Room) : ℚ :=
  let openings := room.doors.length + room.windows.length
  if openings ≥ 2 then 1 else if openings = 1 then 0.6 else 0.2

/-- VentilationEvaluator._evaluate_ventilation_paths. -/
def evalVentilationPaths (L : Layout) : ℚ :=
  if L.rooms = [] then 0
  else (L.rooms.map ventilationPathScore).sum / (L.rooms.length : ℚ)

/-- Cross-ventilation test of _evaluate_cross_ventilation: at least two
windows with a pair on opposing walls. -/
def hasCrossVentilation (room : Room) : Bool :=
  if room.windows.length ≥ 2 then
    let walls := room.windows.filterMap (windowOrient room)
    (walls.contains .west && walls.contains .east) ||
    (walls.contains .north && walls.contains .south)
  else false

/-- VentilationEvaluator._evaluate_cross_ventilation. -/
def evalCrossVentilation (cfg : EvaluationConfig) (L : Layout) : ℚ :=
  let cnt := (L.rooms.filter hasCrossVentilation).length
  if L.rooms.length = 0 then 0
  else ((cnt : ℚ) / (L.rooms.length : ℚ)) * cfg.cross_ventilation_bonus

/-- VentilationEvaluator._evaluate_air_circulation. -/
def evalAirCirculation (L : Layout) : ℚ :=
  if L.rooms = [] then 0
  else (L.rooms.map fun r => min 1 ((r.doors.length : ℚ) / 2)).sum /
    (L.rooms.length : ℚ)

/-- VentilationEvaluator.evaluate: every constituent is guarded in the
source, so the result is always defined. -/
def ventilationEvaluate (cfg : EvaluationConfig) (L : Layout) : Option ℚ :=
  some (evalVentilationPaths L * 0.4 + evalCrossVentilation cfg L * 0.3 +
    evalAirCirculation L * 0.3)

/-- The dict comprehension room_dict = {room.room_type: room for room in
layout.rooms}: the last room of each type wins. -/
def lastRoomOfType (L : Layout) (t : RoomType) : Option Room :=
  (L.rooms.filter (fun r => r.room_type == t)).getLast?

/-- Ordered pairs (i, j) with i < j, as produced by the nested
enumerate loops of the source. -/
def orderedPairs : List α → List (α × α)
  | [] => []
  | a :: l => (l.map fun b => (a, b)) ++ orderedPairs l

/-- CirculationEvaluator._evaluate_connection_efficiency: inverse-distance
scores over the important-type pairs present in the room dict, divided by
the configured maximum circulation distance. -/
def evalConnectionEfficiency (cfg : EvaluationConfig) (sq : ℚ → ℚ) (L : Layout) :
    Option ℚ :=
  let important : List RoomType := [.living_room, .kitchen, .bedroom]
  let present := (orderedPairs important).filterMap fun p =>
    match lastRoomOfType L p.1, lastRoomOfType L p.2 with
    | some r1, some r2 => some (r1, r2)
    | _, _ => none
  (omap (fun q : Room × Room =>
      (pydiv (Point.distance_to sq q.1.bounds.center q.2.bounds.center)
        cfg.max_circulation_distance).map fun d => max 0 (1 - d)) present).map
    fun scores =>
      if 0 < present.length then scores.sum / (present.length : ℚ) else 0

/-- CirculationEvaluator._evaluate_path_lengths; with a nonempty hallway list
the deviation is divided by ideal_length = 0.1 * total footprint area,
unguarded. -/
def evalPathLengths (L : Layout) : Option ℚ :=
  if L.hallways = [] then some 1
  else
    let total_hallway_length := (L.hallways.map fun h => max h.width h.height).sum
    let ideal_length := L.total_area * 0.1
    (pydiv |total_hallway_length - ideal_length| ideal_length).map
      fun d => max 0 (1 - d)

/-- CirculationEvaluator._evaluate_circulation_intersections; the divisor is
clamped below by 1 and len // 2 is Python floor division. -/
def evalCirculationIntersections (L : Layout) : ℚ :=
  let inter := ((orderedPairs L.hallways).filter fun p => p.1.intersects p.2).length
  let max_inter := L.hallways.length / 2
  max 0 (1 - (inter : ℚ) / ((max 1 max_inter : ℕ) : ℚ))

/-- CirculationEvaluator.evaluate: 0.3 / 0.4 / 0.3 blend in source order. -/
def circulationEvaluate (cfg : EvaluationConfig) (sq : ℚ → ℚ) (L : Layout) :
    Option ℚ := do
  let c ← evalConnectionEfficiency cfg sq L
  let p ← evalPathLengths L
  pure (c * 0.3 + p * 0.4 + evalCirculationIntersections L * 0.3)

/-- ComfortEvaluator._evaluate_noise_isolation: noise-source to quiet-zone
distances (via the last-room-of-type dict), 5 units for a full score. -/
def evalNoiseIsolation (sq : ℚ → ℚ) (L : Layout) : ℚ :=
  let noise : List RoomType := [.kitchen, .bathroom]
  let quiet : List RoomType := [.bedroom, .study]
  let scores := noise.foldl (fun acc ns =>
    match lastRoomOfType L ns with
    | none => acc
    | some src => acc ++ quiet.filterMap fun qt =>
        (lastRoomOfType L qt).map fun q =>
          min 1 (Point.distance_to sq src.bounds.center q.bounds.center / 5)) []
  if scores = [] then 1 else scores.sum / (scores.length : ℚ)

/-- The door-on-main-wall test of _evaluate_privacy (threshold 0.5). -/
def doorOnMainWall (room : Room) (d : Rectangle) : Bool :=
  decide (d.x ≤ room.bounds.x + 0.5) ||
  decide (d.x + d.width ≥ room.bounds.right - 0.5) ||
  decide (d.y ≤ room.bounds.y + 0.5) ||
  decide (d.y + d.height ≥ room.bounds.bottom - 0.5)

/-- ComfortEvaluator._evaluate_privacy. -/
def evalPrivacy (L : Layout) : ℚ :=
  let priv : List RoomType := [.bedroom, .bathroom]
  let scores := priv.filterMap fun t =>
    (lastRoomOfType L t).map fun room =>
      let public_access := (room.doors.filter (doorOnMainWall room)).length
      max 0 (1 - (public_access : ℚ) / 2)
  if scores = [] then 1 else scores.sum / (scores.length : ℚ)

/-- ComfortEvaluator._evaluate_social_spaces; the aspect division by the
room height is unguarded; an absent social room type contributes nothing. -/
def evalSocialSpaces (cfg : EvaluationConfig) (L : Layout) : Option ℚ :=
  let social : List RoomType := [.living_room, .dining_room]
  (omap (fun t =>
    match lastRoomOfType L t with
    | none => some 0
    | some room =>
      let ideal_area : ℚ := if t = RoomType.living_room then 20 else 15
      (pydiv room.bounds.width room.bounds.height).map fun aspect =>
        let shape := if 0.8 ≤ aspect ∧ aspect ≤ 1.25 then (1 : ℚ) else 0.7
        (min 1 (room.area / ideal_area) + shape) / 2) social).map
    fun contribs => contribs.sum / 2 * cfg.social_area_bonus

/-- Per-zone clustering score of _evaluate_functional_zoning: dispersion of
the zone room centers around their centroid, 10 units as the baseline. -/
def zoneScore (sq : ℚ → ℚ) (L : Layout) (zone : List RoomType) : ℚ :=
  let zone_rooms := L.rooms.filter fun r => zone.contains r.room_type
  if zone_rooms.length < 2 then 1
  else
    let centers := zone_rooms.map fun r => r.bounds.center
    let n : ℚ := (centers.length : ℚ)
    let avg : Point := ⟨(centers.map Point.x).sum / n, (centers.map Point.y).sum / n⟩
    let avg_distance := (centers.map fun c => Point.distance_to sq c avg).sum / n
    max 0 (1 - avg_distance / 10)

/-- ComfortEvaluator._evaluate_functional_zoning over the three zones. -/
def evalFunctionalZoning (sq : ℚ → ℚ) (L : Layout) : ℚ :=
  (zoneScore sq L [.living_room, .dining_room] +
   zoneScore sq L [.bedroom, .study] +
   zoneScore sq L [.kitchen, .bathroom]) / 3

/-- ComfortEvaluator.evaluate: 0.3 / 0.3 / 0.2 / 0.2 blend in source order. -/
def comfortEvaluate (cfg : EvaluationConfig) (sq : ℚ → ℚ) (L : Layout) :
    Option ℚ := do
  let s ← evalSocialSpaces cfg L
  pure (evalNoiseIsolation sq L * 0.3 + evalPrivacy L * 0.3 + s * 0.2 +
    evalFunctionalZoning sq L * 0.2)

/-- The evaluator list built by MultiDimensionalEvaluator.__init__: the
sub-evaluator, its configured weight, and the dictionary key that
evaluate_detailed derives from the class name. -/
def evaluators (cfg : EvaluationConfig) (sq : ℚ → ℚ) :
    List ((Layout → Option ℚ) × ℚ × String) :=
  [(spaceEfficiencyEvaluate cfg, cfg.space_efficiency_weight, "spaceefficiency"),
   (lightingEvaluate cfg sq, cfg.lighting_weight, "lighting"),
   (ventilationEvaluate cfg, cfg.ventilation_weight, "ventilation"),
   (circulationEvaluate cfg sq, cfg.circulation_weight, "circulation"),
   (comfortEvaluate cfg sq, cfg.comfort_weight, "comfort")]

/-- The accumulation loop of MultiDimensionalEvaluator.evaluate. -/
def evalTotalLoop (L : Layout) :
    List ((Layout → Option ℚ) × ℚ × String) → ℚ → Option ℚ
  | [], acc => some acc
  | e :: rest, acc => (e.1 L).bind fun score => evalTotalLoop L rest (acc + score * e.2.1)

/-- MultiDimensionalEvaluator.evaluate. -/
def evaluate (cfg : EvaluationConfig) (sq : ℚ → ℚ) (L : Layout) : Option ℚ :=
  evalTotalLoop L (evaluators cfg sq) 0

/-- One entry of the evaluate_detailed result dict. -/
structure DimEntry where
  score : ℚ
  weight : ℚ
  weighted_score : ℚ
deriving DecidableEq

/-- The accumulation loop of MultiDimensionalEvaluator.evaluate_detailed,
collecting the per-dimension entries in insertion order. -/
def evalDetailedLoop (L : Layout) :
    List ((Layout → Option ℚ) × ℚ × String) → ℚ → List (String × DimEntry) →
    Option (List (String × DimEntry) × ℚ)
  | [], acc, res => some (res, acc)
  | e :: rest, acc, res =>
    (e.1 L).bind fun score =>
      evalDetailedLoop L rest (acc + score * e.2.1)
        (res ++ [(e.2.2, ⟨score, e.2.1, score * e.2.1⟩)])

/-- MultiDimensionalEvaluator.evaluate_detailed: the per-dimension entries
followed by the total entry, whose weight field is the sum of the configured
weights and whose score and weighted_score fields both hold the running
total. -/
def evaluate_detailed (cfg : EvaluationConfig) (sq : ℚ → ℚ) (L : Layout) :
    Option (List (String × DimEntry) × DimEntry) :=
  (evalDetailedLoop L (evaluators cfg sq) 0 []).map fun r =>
    (r.1, ⟨r.2, ((evaluators cfg sq).map fun e => e.2.1).sum, r.2⟩)

theorem pydiv_isSome {a b : ℚ} (h : b ≠ 0) : (pydiv a b).isSome := by
  simp [pydiv, h]

theorem evalDetailedLoop_total (L : Layout)
    (es : List ((Layout → Option ℚ) × ℚ × String)) (acc : ℚ)
    (res : List (String × DimEntry)) :
    (evalDetailedLoop L es acc res).map (fun r => r.2) = evalTotalLoop L es acc := by
  induction es generalizing acc res with
  | nil => simp [evalDetailedLoop, evalTotalLoop]
  | cons e rest ih =>
    simp only [evalDetailedLoop, evalTotalLoop]
    cases e.1 L with
    | none => simp
    | some s => simp [ih]

/-- C1: for every layout, weight configuration and square-root routine, the
weighted_score of the total entry reported by evaluate_detailed equals the
result of evaluate: both run the same sub-evaluators in the same order,
multiply by the same weights, add in the same order, and fail in exactly the
same cases. -/
theorem C1_detailed_total_agrees (cfg : EvaluationConfig) (sq : ℚ → ℚ)
    (L : Layout) :
    (evaluate_detailed cfg sq L).map (fun r => r.2.weighted_score) =
      evaluate cfg sq L := by
  unfold evaluate_detailed evaluate
  rw [← evalDetailedLoop_total L (evaluators cfg sq) 0 []]
  cases evalDetailedLoop L (evaluators cfg sq) 0 [] <;> simp

theorem omap_const_of {f : α → Option β} {c : β} :
    ∀ {l : List α}, (∀ a ∈ l, f a = some c) →
      omap f l = some (l.map fun _ => c) := by
  intro l h
  induction l with
  | nil => simp [omap]
  | cons a t ih =>
    simp [omap, h a (List.mem_cons_self a t),
      ih fun x hx => h x (List.mem_cons_of_mem a hx)]

theorem lastRoomOfType_mem {L : Layout} {t : RoomType} {r : Room}
    (h : lastRoomOfType L t = some r) : r ∈ L.rooms := by
  unfold lastRoomOfType at h
  exact List.mem_of_mem_filter (List.mem_of_mem_getLast? h)

theorem evalUtilizationRate_isSome (cfg : EvaluationConfig) (rate : ℚ)
    (h1 : cfg.ideal_utilization_rate ≠ 0) :
    (evalUtilizationRate cfg rate).isSome := by
  simp only [evalUtilizationRate, Option.isSome_map']
  exact pydiv_isSome h1

theorem evalRoomEfficiency_isSome (L : Layout)
    (h5 : ∀ r ∈ L.rooms, r.bounds.height ≠ 0) :
    (evalRoomEfficiency L).isSome := by
  unfold evalRoomEfficiency
  by_cases hr : L.rooms = []
  · simp [hr]
  · have : (omap roomEfficiencyScore L.rooms).isSome := by
      refine omap_isSome fun r hrm => ?_
      simp only [roomEfficiencyScore, Option.isSome_map']
      exact pydiv_isSome (h5 r hrm)
    obtain ⟨scores, hs⟩ := Option.isSome_iff_exists.mp this
    simp [hr, hs]

theorem evalHallwayEfficiency_isSome (L : Layout)
    (h7 : L.hallways ≠ [] → L.total_area ≠ 0) :
    (evalHallwayEfficiency L).isSome := by
  unfold evalHallwayEfficiency
  by_cases hh : L.hallways = []
  · simp [hh]
  · simp only [hh, if_false, Option.isSome_map']
    exact pydiv_isSome (h7 hh)

theorem spaceEfficiency_isSome (cfg : EvaluationConfig) (L : Layout)
    (h1 : cfg.ideal_utilization_rate ≠ 0)
    (h5 : ∀ r ∈ L.rooms, r.bounds.height ≠ 0)
    (h7 : L.hallways ≠ [] → L.total_area ≠ 0) :
    (spaceEfficiencyEvaluate cfg L).isSome := by
  obtain ⟨u, hu⟩ := Option.isSome_iff_exists.mp
    (evalUtilizationRate_isSome cfg L.utilization_rate h1)
  obtain ⟨re, hre⟩ := Option.isSome_iff_exists.mp (evalRoomEfficiency_isSome L h5)
  obtain ⟨he, hhe⟩ := Option.isSome_iff_exists.mp (evalHallwayEfficiency_isSome L h7)
  simp [spaceEfficiencyEvaluate, hu, hre, hhe]

theorem evalWindowCoverage_isSome (cfg : EvaluationConfig) (L : Layout)
    (h2 : cfg.window_area_ratio ≠ 0) :
    (evalWindowCoverage cfg L).isSome := by
  unfold evalWindowCoverage
  by_cases hr : L.rooms = []
  · simp [hr]
  · simp only [hr, if_false]
    by_cases hw : (L.rooms.map fun r => 2 * (r.bounds.width + r.bounds.height) * 2.8).sum = 0
    · simp [hw]
    · simp only [hw, if_false, Option.isSome_map']
      exact pydiv_isSome h2

theorem uniformity_isSome (cfg : EvaluationConfig) (sq : ℚ → ℚ) (L : Layout)
    (h3 : cfg.max_depth_from_window ≠ 0)
    (h6 : ∀ r ∈ L.rooms, r.windows ≠ [] → r.area ≠ 0) :
    (evalLightingUniformity cfg sq L).isSome := by
  simp only [evalLightingUniformity, Option.isSome_map']
  refine omap_isSome fun r hrm => ?_
  unfold uniformityRoomScore
  cases hwin : r.windows with
  | nil => simp
  | cons w ws =>
    obtain ⟨d1, hd1⟩ := Option.isSome_iff_exists.mp
      (pydiv_isSome (a := ((ws.map fun win =>
        Point.distance_to sq r.bounds.center (windowCenter win)).foldl min
        (Point.distance_to sq r.bounds.center (windowCenter w)))) h3)
    obtain ⟨d2, hd2⟩ := Option.isSome_iff_exists.mp
      (pydiv_isSome (a := (30 : ℚ)) (h6 r hrm (by simp [hwin])))
    simp [hd1, hd2]

/-- With every room windowless (and at least one room), the uniformity term
evaluates to the flat per-room floor value 0.3. -/
theorem uniformity_windowless (cfg : EvaluationConfig) (sq : ℚ → ℚ) (L : Layout)
    (hne : L.rooms ≠ []) (hw : ∀ r ∈ L.rooms, r.windows = []) :
    evalLightingUniformity cfg sq L = some 0.3 := by
  have homap : omap (uniformityRoomScore cfg sq) L.rooms =
      some (L.rooms.map fun _ => (0.3 : ℚ)) :=
    omap_const_of fun r hr => by simp [uniformityRoomScore, hw r hr]
  have hlen : (L.rooms.length : ℚ) ≠ 0 := by
    simpa using fun hc => hne (List.length_eq_zero.mp hc)
  unfold evalLightingUniformity
  rw [homap]
  have hmap : (L.rooms.map fun _ => (0.3 : ℚ)) = List.replicate L.rooms.length 0.3 :=
    List.map_const' L.rooms (0.3 : ℚ)
  simp only [Option.map_some', hmap, List.sum_replicate, smul_eq_mul,
    List.length_replicate]
  rw [if_neg (by simpa using fun hc => hne (List.length_eq_zero.mp hc))]
  rw [nsmul_eq_mul, mul_comm, mul_div_assoc, div_self hlen, mul_one]

theorem lighting_isSome_of (cfg : EvaluationConfig) (sq : ℚ → ℚ) (L : Layout)
    (h2 : cfg.window_area_ratio ≠ 0)
    (hu : (evalLightingUniformity cfg sq L).isSome) :
    (lightingEvaluate cfg sq L).isSome := by
  obtain ⟨wc, hwc⟩ := Option.isSome_iff_exists.mp (evalWindowCoverage_isSome cfg L h2)
  obtain ⟨u, hu⟩ := Option.isSome_iff_exists.mp hu
  simp [lightingEvaluate, hwc, hu]

theorem connection_isSome (cfg : EvaluationConfig) (sq : ℚ → ℚ) (L : Layout)
    (h4 : cfg.max_circulation_distance ≠ 0) :
    (evalConnectionEfficiency cfg sq L).isSome := by
  simp only [evalConnectionEfficiency, Option.isSome_map']
  refine omap_isSome fun q _ => ?_
  rw [Option.isSome_map']
  exact pydiv_isSome h4

theorem pathLengths_isSome (L : Layout)
    (h7 : L.hallways ≠ [] → L.total_area ≠ 0) :
    (evalPathLengths L).isSome := by
  unfold evalPathLengths
  by_cases hh : L.hallways = []
  · simp [hh]
  · simp only [hh, if_false, Option.isSome_map']
    exact pydiv_isSome (mul_ne_zero (h7 hh) (by norm_num))

theorem circulation_isSome (cfg : EvaluationConfig) (sq : ℚ → ℚ) (L : Layout)
    (h4 : cfg.max_circulation_distance ≠ 0)
    (h7 : L.hallways ≠ [] → L.total_area ≠ 0) :
    (circulationEvaluate cfg sq L).isSome := by
  obtain ⟨c, hc⟩ := Option.isSome_iff_exists.mp (connection_isSome cfg sq L h4)
  obtain ⟨p, hp⟩ := Option.isSome_iff_exists.mp (pathLengths_isSome L h7)
  simp [circulationEvaluate, hc, hp]

theorem social_isSome (cfg : EvaluationConfig) (L : Layout)
    (h5 : ∀ r ∈ L.rooms, r.bounds.height ≠ 0) :
    (evalSocialSpaces cfg L).isSome := by
  simp only [evalSocialSpaces, Option.isSome_map']
  refine omap_isSome fun t _ => ?_
  cases hlast : lastRoomOfType L t with
  | none => simp [hlast]
  | some room =>
    obtain ⟨d, hd⟩ := Option.isSome_iff_exists.mp
      (pydiv_isSome (a := room.bounds.width) (h5 room (lastRoomOfType_mem hlast)))
    simp [hlast, hd]

theorem comfort_isSome (cfg : EvaluationConfig) (sq : ℚ → ℚ) (L : Layout)
    (h5 : ∀ r ∈ L.rooms, r.bounds.height ≠ 0) :
    (comfortEvaluate cfg sq L).isSome := by
  obtain ⟨s, hs⟩ := Option.isSome_iff_exists.mp (social_isSome cfg L h5)
  simp [comfortEvaluate, hs]

theorem evaluate_isSome_of (cfg : EvaluationConfig) (sq : ℚ → ℚ) (L : Layout)
    (e1 : (spaceEfficiencyEvaluate cfg L).isSome)
    (e2 : (lightingEvaluate cfg sq L).isSome)
    (e4 : (circulationEvaluate cfg sq L).isSome)
    (e5 : (comfortEvaluate cfg sq L).isSome) :
    (evaluate cfg sq L).isSome := by
  obtain ⟨v1, h1⟩ := Option.isSome_iff_exists.mp e1
  obtain ⟨v2, h2⟩ := Option.isSome_iff_exists.mp e2
  obtain ⟨v4, h4⟩ := Option.isSome_iff_exists.mp e4
  obtain ⟨v5, h5⟩ := Option.isSome_iff_exists.mp e5
  simp [evaluate, evaluators, evalTotalLoop, h1, h2, h4, h5, ventilationEvaluate]

/-- A layout whose single room has zero height, inside a 10 x 10 footprint. -/
def degenerateLayout : Layout :=
  { bounds := ⟨0, 0, 10, 10⟩
    rooms := [Room.create .living_room ⟨1, 1, 4, 0⟩ 0 none 0] }

/-- C7 counterexample: on a layout containing a zero-height room, the
aspect-ratio division of _evaluate_room_efficiency divides by zero and the
space-efficiency evaluator raises instead of short-circuiting, refuting the
claim that every such ratio computation returns a defined value for every
layout. -/
theorem C7_division_counterexample :
    spaceEfficiencyEvaluate {} degenerateLayout = none := by
  have hre : evalRoomEfficiency degenerateLayout = none := by
    norm_num [evalRoomEfficiency, degenerateLayout, omap, roomEfficiencyScore,
      pydiv, Room.create]
  obtain ⟨u, hu⟩ := Option.isSome_iff_exists.mp
    (evalUtilizationRate_isSome {} degenerateLayout.utilization_rate (by norm_num))
  simp [spaceEfficiencyEvaluate, hu, hre]

/-- C7 (amended): the ratio computations carrying explicit zero guards do
short-circuit, but the aspect-ratio divisions by a room height, the area
factor 30 / area for windowed rooms, and the divisions by footprint-derived
corridor baselines are unguarded; under side conditions ruling exactly those
out — nonzero room heights, nonzero area for rooms with windows, nonzero
footprint area whenever hallways are present, and nonzero configured ideal
values — every sub-evaluator and the combined evaluate return a defined
value. -/
theorem C7_guarded_divisions_amended (cfg : EvaluationConfig) (sq : ℚ → ℚ)
    (L : Layout)
    (h1 : cfg.ideal_utilization_rate ≠ 0) (h2 : cfg.window_area_ratio ≠ 0)
    (h3 : cfg.max_depth_from_window ≠ 0) (h4 : cfg.max_circulation_distance ≠ 0)
    (h5 : ∀ r ∈ L.rooms, r.bounds.height ≠ 0)
    (h6 : ∀ r ∈ L.rooms, r.windows ≠ [] → r.area ≠ 0)
    (h7 : L.hallways ≠ [] → L.total_area ≠ 0) :
    (spaceEfficiencyEvaluate cfg L).isSome ∧ (lightingEvaluate cfg sq L).isSome ∧
    (ventilationEvaluate cfg L).isSome ∧ (circulationEvaluate cfg sq L).isSome ∧
    (comfortEvaluate cfg sq L).isSome ∧ (evaluate cfg sq L).isSome := by
  have e1 := spaceEfficiency_isSome cfg L h1 h5 h7
  have e2 := lighting_isSome_of cfg sq L h2 (uniformity_isSome cfg sq L h3 h6)
  have e4 := circulation_isSome cfg sq L h4 h7
  have e5 := comfort_isSome cfg sq L h5
  exact ⟨e1, e2, by simp [ventilationEvaluate], e4, e5,
    evaluate_isSome_of cfg sq L e1 e2 e4 e5⟩

/-- A well-behaved one-room layout inside a 10 x 10 footprint. -/
def plainLayout : Layout :=
  { bounds := ⟨0, 0, 10, 10⟩
    rooms := [Room.create .living_room ⟨2, 2, 3, 3⟩ 0 none 0] }

/-- C7 witness: the amended theorem applied to a concrete layout with the
default configuration. -/
theorem C7_guarded_divisions_amended_witness :
    (spaceEfficiencyEvaluate {} plainLayout).isSome ∧
    (lightingEvaluate {} (fun q => q) plainLayout).isSome ∧
    (ventilationEvaluate {} plainLayout).isSome ∧
    (circulationEvaluate {} (fun q => q) plainLayout).isSome ∧
    (comfortEvaluate {} (fun q => q) plainLayout).isSome ∧
    (evaluate {} (fun q => q) plainLayout).isSome :=
  C7_guarded_divisions_amended {} (fun q => q) plainLayout
    (by norm_num) (by norm_num) (by norm_num) (by norm_num)
    (by
      intro r hr
      simp only [plainLayout, List.mem_singleton] at hr
      subst hr
      norm_num [Room.create])
    (by
      intro r hr hwin
      simp only [plainLayout, List.mem_singleton] at hr
      subst hr
      simp [Room.create] at hwin)
    (by intro h; simp [plainLayout] at h)

/-- A 20 x 15 layout with two rooms, neither of which has any window. -/
def windowlessLayout : Layout :=
  { bounds := ⟨0, 0, 20, 15⟩
    rooms := [Room.create .living_room ⟨2, 2, 8, 6⟩ 0 none 0,
              Room.create .bedroom ⟨2, 8, 6, 5⟩ 0 none 1] }

/-- C8 counterexample: with zero windows in every room the uniformity term
evaluates to 0.3 — each windowless room scores the flat 0.3 floor — so its
weighted contribution to the lighting score is 0.3 * 0.4, which is nonzero,
refuting the claimed 0 contribution. -/
theorem C8_uniformity_counterexample :
    evalLightingUniformity {} (fun q => q) windowlessLayout = some 0.3 ∧
    (0.3 : ℚ) * 0.4 ≠ 0 :=
  ⟨uniformity_windowless {} (fun q => q) windowlessLayout
      (by simp [windowlessLayout])
      (by
        intro r hr
        rcases (by simpa [windowlessLayout] using hr : _ ∨ _) with h | h <;>
          simp [h, Room.create]),
   by norm_num⟩

/-- C8 (amended): for every layout with at least one room and no windows in
any room, the uniformity term evaluates to the flat value 0.3 — contributing
0.3 * 0.4 rather than 0 to the lighting score — while the lighting score and
the overall evaluate remain defined, under the degeneracy side conditions of
C7 (nonzero room heights, nonzero footprint area when hallways are present,
nonzero configured ideal values). -/
theorem C8_windowless_lighting_amended (cfg : EvaluationConfig) (sq : ℚ → ℚ)
    (L : Layout)
    (hne : L.rooms ≠ []) (hw : ∀ r ∈ L.rooms, r.windows = [])
    (h1 : cfg.ideal_utilization_rate ≠ 0) (h2 : cfg.window_area_ratio ≠ 0)
    (h4 : cfg.max_circulation_distance ≠ 0)
    (h5 : ∀ r ∈ L.rooms, r.bounds.height ≠ 0)
    (h7 : L.hallways ≠ [] → L.total_area ≠ 0) :
    evalLightingUniformity cfg sq L = some 0.3 ∧
    (lightingEvaluate cfg sq L).isSome ∧ (evaluate cfg sq L).isSome := by
  have hu := uniformity_windowless cfg sq L hne hw
  have e2 := lighting_isSome_of cfg sq L h2 (by simp [hu])
  exact ⟨hu, e2, evaluate_isSome_of cfg sq L
    (spaceEfficiency_isSome cfg L h1 h5 h7) e2
    (circulation_isSome cfg sq L h4 h7) (comfort_isSome cfg sq L h5)⟩

/-- C8 witness: the amended theorem applied to the concrete windowless
two-room layout with the default configuration. -/
theorem C8_windowless_lighting_amended_witness :
    evalLightingUniformity {} (fun q => q) windowlessLayout = some 0.3 ∧
    (lightingEvaluate {} (fun q => q) windowlessLayout).isSome ∧
    (evaluate {} (fun q => q) windowlessLayout).isSome :=
  C8_windowless_lighting_amended {} (fun q => q) windowlessLayout
    (by simp [windowlessLayout])
    (by
      intro r hr
      rcases (by simpa [windowlessLayout] using hr : _ ∨ _) with h | h <;>
        simp [h, Room.create])
    (by norm_num) (by norm_num) (by norm_num)
    (by
      intro r hr
      rcases (by simpa [windowlessLayout] using hr : _ ∨ _) with h | h <;>
        norm_num [h, Room.create])
    (by intro h; simp [windowlessLayout] at h)

/-- Monte-Carlo configuration with its source defaults
(monte_carlo_engine.py, MonteCarloConfig). -/
structure MonteCarloConfig where
  max_iterations : ℕ := 10000
  population_size : ℕ := 50
  mutation_rate : ℚ := 0.3
  crossover_rate : ℚ := 0.7
  temperature_start : ℚ := 100.0
  temperature_end : ℚ := 0.01
  cooling_rate : ℚ := 0.995
  elite_ratio : ℚ := 0.2
  convergence_threshold : ℚ := 0.000001
  max_no_improvement : ℕ := 100
  min_room_area : ℚ := 5.0
  max_room_area : ℚ := 50.0
  min_aspect_ratio : ℚ := 0.5
  max_aspect_ratio : ℚ := 2.0
  wall_thickness : ℚ := 0.2
deriving DecidableEq

/-- LayoutConstraints defaults; only the scalar fields are ever read by the
engine (the adjacency and separation tables are unused by it). -/
structure LayoutConstraints where
  min_room_distance : ℚ := 1.0
  max_total_rooms : ℕ := 15
  min_hallway_width : ℚ := 1.2
  max_corridor_length : ℚ := 10.0
deriving DecidableEq

/-- RoomTemplate (core_data_structures.py). -/
structure RoomTemplate where
  room_type : RoomType
  min_area : ℚ
  max_area : ℚ
  aspect_ratio_min : ℚ := 0.6
  aspect_ratio_max : ℚ := 1.67
deriving DecidableEq

/-- RandomLayoutGenerator._create_room_templates; every RoomType has an
entry, so the .get lookup never misses. -/
def roomTemplates : RoomType → RoomTemplate
  | .living_room => ⟨.living_room, 15, 40, 0.8, 1.5⟩
  | .bedroom => ⟨.bedroom, 8, 25, 0.7, 1.4⟩
  | .kitchen => ⟨.kitchen, 6, 20, 0.6, 1.8⟩
  | .bathroom => ⟨.bathroom, 3, 12, 0.5, 2.0⟩
  | .dining_room => ⟨.dining_room, 10, 25, 0.7, 1.6⟩
  | .study => ⟨.study, 6, 18, 0.6, 1.5⟩
  | .balcony => ⟨.balcony, 4, 15, 0.3, 3.0⟩
  | .storage => ⟨.storage, 2, 8, 0.4, 2.5⟩
  | .hallway => ⟨.hallway, 3, 15, 0.2, 5.0⟩

/-- The module-level random source: qs streams the outputs of random.random
(values in [0,1), asserted as a hypothesis where needed); ns streams the
integer draws that back shuffle, choice and sample.  Consuming a value drops
it from the front of its stream. -/
structure RandSrc where
  qs : ℕ → ℚ
  ns : ℕ → ℕ

def RandSrc.nextQ (r : RandSrc) : ℚ × RandSrc :=
  (r.qs 0, ⟨fun n => r.qs (n + 1), r.ns⟩)

def RandSrc.nextN (r : RandSrc) : ℕ × RandSrc :=
  (r.ns 0, ⟨r.qs, fun n => r.ns (n + 1)⟩)

def RandSrc.dropN (r : RandSrc) (k : ℕ) : RandSrc := ⟨r.qs, fun n => r.ns (n + k)⟩

/-- random.uniform a b = a + (b - a) * random.random(). -/
def RandSrc.uniform (r : RandSrc) (a b : ℚ) : ℚ × RandSrc :=
  let (u, r1) := r.nextQ
  (a + (b - a) * u, r1)

/-- The guarantee that every queued random.random output lies in [0,1). -/
def RandSrc.QRange (r : RandSrc) : Prop := ∀ n, 0 ≤ r.qs n ∧ r.qs n < 1

theorem RandSrc.QRange.nextQ {r : RandSrc} (h : r.QRange) : (r.nextQ).2.QRange :=
  fun n => h (n + 1)

theorem RandSrc.QRange.nextN {r : RandSrc} (h : r.QRange) : (r.nextN).2.QRange := h

theorem RandSrc.QRange.dropN {r : RandSrc} (h : r.QRange) (k : ℕ) : (r.dropN k).QRange := h

/-- RoomTemplate.generate_random_size: draw area and aspect uniformly, take
width = sqrt(area * aspect) and height = area / width; the division raises
exactly when the square root vanishes. -/
def generate_random_size (tpl : RoomTemplate) (sq : ℚ → ℚ) (r : RandSrc) :
    Option ((ℚ × ℚ) × RandSrc) :=
  let (area, r1) := r.uniform tpl.min_area tpl.max_area
  let (aspect, r2) := r1.uniform tpl.aspect_ratio_min tpl.aspect_ratio_max
  let width := sq (area * aspect)
  (pydiv area width).map fun height => ((width, height), r2)

/-- The inner count loop of the requirement pass of generate_random_layout. -/
def sampleCount (sq : ℚ → ℚ) (t : RoomType) :
    ℕ → RandSrc → Option (List (RoomType × ℚ × ℚ) × RandSrc)
  | 0, r => some ([], r)
  | Nat.succ c, r =>
    (generate_random_size (roomTemplates t) sq r).bind fun w =>
      (sampleCount sq t c w.2).map fun l => ((t, w.1.1, w.1.2) :: l.1, l.2)

/-- The requirement pass of generate_random_layout: sampled sizes per
required type, in requirement order. -/
def sampleRooms (sq : ℚ → ℚ) :
    List (RoomType × ℕ) → RandSrc → Option (List (RoomType × ℚ × ℚ) × RandSrc)
  | [], r => some ([], r)
  | (t, c) :: rest, r =>
    (sampleCount sq t c r).bind fun l1 =>
      (sampleRooms sq rest l1.2).map fun l2 => (l1.1 ++ l2.1, l2.2)

/-- Exchange the elements at positions i and j, the list-level model of the
in-place swap performed by random.shuffle. -/
def swapIdx (l : List α) (i j : ℕ) : List α :=
  match l[i]?, l[j]? with
  | some a, some b => (l.set i b).set j a
  | _, _ => l

/-- Fisher-Yates from the top index downward (random.shuffle): at index
i + 1 the partner is an integer draw reduced mod i + 2. -/
def shuffleAux (d : ℕ → ℕ) : ℕ → List α → ℕ → List α
  | _, l, 0 => l
  | k, l, Nat.succ i => shuffleAux d (k + 1) (swapIdx l (i + 1) (d k % (i + 2))) i

/-- random.shuffle consumes one integer draw per index below the length. -/
def pyshuffle (r : RandSrc) (l : List α) : List α × RandSrc :=
  (shuffleAux r.ns 0 l (l.length - 1), r.dropN (l.length - 1))

/-- RandomLayoutGenerator._can_place_room_in_space. -/
def can_place_room_in_space (cfg : MonteCarloConfig) (space : Rectangle)
    (w h : ℚ) : Bool :=
  decide (space.width ≥ w + 2 * cfg.wall_thickness) &&
  decide (space.height ≥ h + 2 * cfg.wall_thickness)

/-- RandomLayoutGenerator._choose_position_in_space: two uniform draws inside
the margin-reduced bounds. -/
def choose_position_in_space (cfg : MonteCarloConfig) (space : Rectangle)
    (w h : ℚ) (r : RandSrc) : (ℚ × ℚ) × RandSrc :=
  let margin := cfg.wall_thickness
  let (u1, r1) := r.nextQ
  let x := space.x + margin + u1 * (space.width - w - 2 * margin)
  let (u2, r2) := r1.nextQ
  let y := space.y + margin + u2 * (space.height - h - 2 * margin)
  ((x, y), r2)

/-- RandomLayoutGenerator._split_space: up to four residual rectangles
(above, below, left, right of the placed room), each kept only when thicker
than twice the wall margin, in source order. -/
def split_space (cfg : MonteCarloConfig) (original placed : Rectangle) :
    List Rectangle :=
  let margin := cfg.wall_thickness
  (if placed.top - original.top > margin * 2 then
    [Rectangle.mk original.x original.y original.width
      (placed.top - original.top - margin)] else []) ++
  (if original.bottom - placed.bottom > margin * 2 then
    [Rectangle.mk original.x (placed.bottom + margin) original.width
      (original.bottom - placed.bottom - margin)] else []) ++
  (if placed.left - original.left > margin * 2 then
    [Rectangle.mk original.x placed.top
      (placed.left - original.left - margin) (placed.bottom - placed.top)]
  else []) ++
  (if original.right - placed.right > margin * 2 then
    [Rectangle.mk (placed.right + margin) placed.top
      (original.right - placed.right - margin) (placed.bottom - placed.top)]
  else [])

/-- One grid candidate of _compact_place_room: within the margin-reduced
footprint and free of bounding-box overlap with every placed room. -/
def compactCandidate (cfg : MonteCarloConfig) (L : Layout) (w h : ℚ)
    (row col : ℕ) : Option Rectangle :=
  let margin := cfg.wall_thickness
  let x := L.bounds.x + (col : ℚ) * 1 + margin
  let y := L.bounds.y + (row : ℚ) * 1 + margin
  if x + w ≤ L.bounds.right - margin ∧ y + h ≤ L.bounds.bottom - margin then
    let cand := Rectangle.mk x y w h
    if L.rooms.all fun room => !cand.intersects room.bounds then some cand
    else none
  else none

/-- RandomLayoutGenerator._compact_place_room: scan the unit grid in
row-major order and place a fresh room at the first admissible position; when
no position is admissible the room is silently dropped. -/
def compact_place_room (cfg : MonteCarloConfig) (L : Layout) (t : RoomType)
    (w h : ℚ) (addr : ℕ → ℕ) (apos : ℕ) : Layout × ℕ :=
  match (List.range (pytrunc (L.bounds.height / 1)).toNat).findSome? (fun row =>
      (List.range (pytrunc (L.bounds.width / 1)).toNat).findSome? fun col =>
        compactCandidate cfg L w h row col) with
  | some cand => (L.add_room (Room.create t cand 0 none (addr apos)), apos + 1)
  | none => (L, apos)

/-- First-fit scan of the free regions, returning the regions before the hit,
the hit itself, and the regions after it. -/
def firstFit (cfg : MonteCarloConfig) (w h : ℚ) :
    List Rectangle → Option (List Rectangle × Rectangle × List Rectangle)
  | [] => none
  | s :: rest =>
    if can_place_room_in_space cfg s w h then some ([], s, rest)
    else (firstFit cfg w h rest).map fun p => (s :: p.1, p.2.1, p.2.2)

/-- The running state of _place_rooms_rectangular_split: the layout being
filled, the free-region list, the random source, and the allocation
position. -/
structure GenState where
  layout : Layout
  spaces : List Rectangle
  rand : RandSrc
  apos : ℕ

/-- One iteration of _place_rooms_rectangular_split: first-fit placement at a
random position with region splitting, or the grid-compaction fallback. -/
def placeStep (cfg : MonteCarloConfig) (addr : ℕ → ℕ) (st : GenState)
    (item : RoomType × ℚ × ℚ) : GenState :=
  match firstFit cfg item.2.1 item.2.2 st.spaces with
  | some pre =>
    let (xy, r1) := choose_position_in_space cfg pre.2.1 item.2.1 item.2.2 st.rand
    let room_bounds := Rectangle.mk xy.1 xy.2 item.2.1 item.2.2
    let room := Room.create item.1 room_bounds 0 none (addr st.apos)
    { layout := st.layout.add_room room
      spaces := (pre.1 ++ pre.2.2) ++ split_space cfg pre.2.1 room_bounds
      rand := r1
      apos := st.apos + 1 }
  | none =>
    let c := compact_place_room cfg st.layout item.1 item.2.1 item.2.2 addr st.apos
    { st with layout := c.1, apos := c.2 }

/-- RandomLayoutGenerator._place_rooms_rectangular_split: fold the placement
step over the shuffled room list, starting from the single footprint
region. -/
def place_rooms_rectangular_split (cfg : MonteCarloConfig) (addr : ℕ → ℕ)
    (L : Layout) (items : List (RoomType × ℚ × ℚ)) (r : RandSrc) : GenState :=
  items.foldl (placeStep cfg addr) ⟨L, [L.bounds], r, 0⟩

/-- The corridor rectangle of _add_hallways: horizontal when the horizontal
center distance dominates, vertical otherwise. -/
def hallwayBetween (hw : ℚ) (startp endp : Point) : Rectangle :=
  if |startp.x - endp.x| > |startp.y - endp.y| then
    Rectangle.mk (min startp.x endp.x - hw / 2) ((startp.y + endp.y) / 2 - hw / 2)
      (max startp.x endp.x - min startp.x endp.x + hw) hw
  else
    Rectangle.mk ((startp.x + endp.x) / 2 - hw / 2) (min startp.y endp.y - hw / 2)
      hw (max startp.y endp.y - min startp.y endp.y + hw)

/-- The connect loop of _add_hallways: one coin per room other than the main
room (the identity test room != main_room is positional), connecting with
probability 0.3. -/
def hallwayLoop (hw : ℚ) (main : Room) (mainIdx : ℕ) :
    List (ℕ × Room) → Layout → RandSrc → Layout × RandSrc
  | [], L, r => (L, r)
  | (i, room) :: rest, L, r =>
    if i = mainIdx then hallwayLoop hw main mainIdx rest L r
    else
      let (coin, r1) := r.nextQ
      if coin < 0.3 then
        hallwayLoop hw main mainIdx rest
          (L.add_hallway (hallwayBetween hw main.bounds.center room.bounds.center)) r1
      else hallwayLoop hw main mainIdx rest L r1

/-- RandomLayoutGenerator._add_hallways. -/
def add_hallways (cons : LayoutConstraints) (L : Layout) (r : RandSrc) :
    Layout × RandSrc :=
  if L.rooms.length < 2 then (L, r)
  else
    match L.rooms.findIdx? (fun room => room.room_type == RoomType.living_room) with
    | none => (L, r)
    | some mainIdx =>
      match L.rooms[mainIdx]? with
      | none => (L, r)
      | some main => hallwayLoop cons.min_hallway_width main mainIdx
          L.rooms.enum L r

/-- RandomLayoutGenerator.generate_random_layout: sample sizes for every
required room, shuffle them, place by rectangular splitting with the
grid-compaction fallback, then synthesize corridors.  A none models a raised
exception; the only fallible step is the height division inside the size
sampler. -/
def generate_random_layout (cfg : MonteCarloConfig) (cons : LayoutConstraints)
    (sq : ℚ → ℚ) (addr : ℕ → ℕ) (bounds : Rectangle)
    (reqs : List (RoomType × ℕ)) (r : RandSrc) : Option Layout :=
  (sampleRooms sq reqs r).map fun s =>
    let shuffled := pyshuffle s.2 s.1
    let st := place_rooms_rectangular_split cfg addr { bounds := bounds }
      shuffled.1 shuffled.2
    (add_hallways cons st.layout st.rand).1

theorem pydiv_eq_some {a b : ℚ} (h : b ≠ 0) : pydiv a b = some (a / b) := by
  simp [pydiv, h]

theorem roomTemplates_pos (t : RoomType) :
    0 < (roomTemplates t).min_area ∧
    (roomTemplates t).min_area ≤ (roomTemplates t).max_area ∧
    0 < (roomTemplates t).aspect_ratio_min ∧
    (roomTemplates t).aspect_ratio_min ≤ (roomTemplates t).aspect_ratio_max := by
  cases t <;> norm_num [roomTemplates]

theorem uniform_fst (r : RandSrc) (a b : ℚ) :
    (r.uniform a b).1 = a + (b - a) * r.qs 0 := rfl

theorem uniform_snd (r : RandSrc) (a b : ℚ) : (r.uniform a b).2 = r.nextQ.2 := rfl

theorem uniform_pos {r : RandSrc} (hr : r.QRange) {a b : ℚ} (ha : 0 < a)
    (hab : a ≤ b) : 0 < (r.uniform a b).1 := by
  rw [uniform_fst]
  have h0 := (hr 0).1
  have := mul_nonneg (sub_nonneg.mpr hab) h0
  linarith

theorem generate_random_size_some {tpl : RoomTemplate} {sq : ℚ → ℚ} {r : RandSrc}
    (hsq : ∀ x : ℚ, 0 < x → 0 < sq x) (hr : r.QRange)
    (h1 : 0 < tpl.min_area) (h2 : tpl.min_area ≤ tpl.max_area)
    (h3 : 0 < tpl.aspect_ratio_min)
    (h4 : tpl.aspect_ratio_min ≤ tpl.aspect_ratio_max) :
    ∃ wh : ℚ × ℚ,
      generate_random_size tpl sq r = some (wh, r.nextQ.2.nextQ.2) := by
  have harea : 0 < (r.uniform tpl.min_area tpl.max_area).1 := uniform_pos hr h1 h2
  have hr1 : (r.uniform tpl.min_area tpl.max_area).2.QRange := by
    rw [uniform_snd]; exact hr.nextQ
  have haspect : 0 < ((r.uniform tpl.min_area tpl.max_area).2.uniform
      tpl.aspect_ratio_min tpl.aspect_ratio_max).1 := uniform_pos hr1 h3 h4
  have hw : sq ((r.uniform tpl.min_area tpl.max_area).1 *
      ((r.uniform tpl.min_area tpl.max_area).2.uniform tpl.aspect_ratio_min
        tpl.aspect_ratio_max).1) ≠ 0 :=
    ne_of_gt (hsq _ (mul_pos harea haspect))
  refine ⟨(sq ((r.uniform tpl.min_area tpl.max_area).1 *
      ((r.uniform tpl.min_area tpl.max_area).2.uniform tpl.aspect_ratio_min
        tpl.aspect_ratio_max).1),
    (r.uniform tpl.min_area tpl.max_area).1 /
      sq ((r.uniform tpl.min_area tpl.max_area).1 *
        ((r.uniform tpl.min_area tpl.max_area).2.uniform tpl.aspect_ratio_min
          tpl.aspect_ratio_max).1)), ?_⟩
  unfold generate_random_size
  simp only [RandSrc.uniform, RandSrc.nextQ] at hw ⊢
  rw [pydiv_eq_some hw]
  rfl

theorem sampleCount_some {sq : ℚ → ℚ} (hsq : ∀ x : ℚ, 0 < x → 0 < sq x)
    (t : RoomType) :
    ∀ (c : ℕ) (r : RandSrc), r.QRange →
      ∃ v, sampleCount sq t c r = some v ∧ v.1.length = c ∧ v.2.QRange := by
  intro c
  induction c with
  | zero => exact fun r hr => ⟨([], r), rfl, rfl, hr⟩
  | succ c ih =>
    intro r hr
    obtain ⟨p1, p2, p3, p4⟩ := roomTemplates_pos t
    obtain ⟨wh, hv⟩ := generate_random_size_some hsq hr p1 p2 p3 p4
    obtain ⟨v2, hv2, hlen, hq2⟩ := ih r.nextQ.2.nextQ.2 hr.nextQ.nextQ
    exact ⟨((t, wh.1, wh.2) :: v2.1, v2.2), by simp [sampleCount, hv, hv2],
      by simp [hlen], hq2⟩

theorem sampleRooms_some {sq : ℚ → ℚ} (hsq : ∀ x : ℚ, 0 < x → 0 < sq x) :
    ∀ (reqs : List (RoomType × ℕ)) (r : RandSrc), r.QRange →
      ∃ v, sampleRooms sq reqs r = some v ∧
        v.1.length = (reqs.map fun p => p.2).sum ∧ v.2.QRange := by
  intro reqs
  induction reqs with
  | nil => exact fun r hr => ⟨([], r), rfl, rfl, hr⟩
  | cons p rest ih =>
    intro r hr
    obtain ⟨v1, hv1, hlen1, hq1⟩ := sampleCount_some hsq p.1 p.2 r hr
    obtain ⟨v2, hv2, hlen2, hq2⟩ := ih v1.2 hq1
    exact ⟨(v1.1 ++ v2.1, v2.2), by simp [sampleRooms, hv1, hv2],
      by simp [hlen1, hlen2], hq2⟩

theorem swapIdx_length (l : List α) (i j : ℕ) : (swapIdx l i j).length = l.length := by
  unfold swapIdx
  cases l[i]? <;> cases l[j]? <;> simp

theorem shuffleAux_length (d : ℕ → ℕ) :
    ∀ (n k : ℕ) (l : List α), (shuffleAux d k l n).length = l.length := by
  intro n
  induction n with
  | zero => intro k l; rfl
  | succ i ih => intro k l; rw [shuffleAux, ih, swapIdx_length]

theorem pyshuffle_length (r : RandSrc) (l : List α) :
    (pyshuffle r l).1.length = l.length :=
  shuffleAux_length r.ns (l.length - 1) 0 l

theorem placeStep_rooms_le (cfg : MonteCarloConfig) (addr : ℕ → ℕ)
    (st : GenState) (item : RoomType × ℚ × ℚ) :
    (placeStep cfg addr st item).layout.rooms.length ≤
      st.layout.rooms.length + 1 := by
  unfold placeStep
  cases firstFit cfg item.2.1 item.2.2 st.spaces with
  | some pre => simp [Layout.add_room]
  | none =>
    show ((compact_place_room cfg st.layout item.1 item.2.1 item.2.2 addr
      st.apos).1).rooms.length ≤ st.layout.rooms.length + 1
    unfold compact_place_room
    split
    · simp [Layout.add_room]
    · simp

theorem place_fold_rooms_le (cfg : MonteCarloConfig) (addr : ℕ → ℕ) :
    ∀ (items : List (RoomType × ℚ × ℚ)) (st : GenState),
      ((items.foldl (placeStep cfg addr) st).layout.rooms.length ≤
        st.layout.rooms.length + items.length) := by
  intro items
  induction items with
  | nil => intro st; simp
  | cons a t ih =>
    intro st
    have h1 := ih (placeStep cfg addr st a)
    have h2 := placeStep_rooms_le cfg addr st a
    simp only [List.foldl_cons, List.length_cons]
    omega

theorem hallwayLoop_rooms (hw : ℚ) (main : Room) (mainIdx : ℕ) :
    ∀ (pairs : List (ℕ × Room)) (L : Layout) (r : RandSrc),
      (hallwayLoop hw main mainIdx pairs L r).1.rooms = L.rooms := by
  intro pairs
  induction pairs with
  | nil => intro L r; rfl
  | cons p rest ih =>
    intro L r
    unfold hallwayLoop
    by_cases hi : p.1 = mainIdx
    · simp only [hi, if_pos rfl]
      exact ih L r
    · simp only [if_neg hi]
      by_cases hc : r.qs 0 < 0.3
      · simp only [RandSrc.nextQ, if_pos hc]
        rw [ih]
        rfl
      · simp only [RandSrc.nextQ, if_neg hc]
        exact ih L _

theorem add_hallways_rooms (cons : LayoutConstraints) (L : Layout) (r : RandSrc) :
    (add_hallways cons L r).1.rooms = L.rooms := by
  unfold add_hallways
  by_cases h2 : L.rooms.length < 2
  · simp [h2]
  · simp only [h2, if_false]
    cases hidx : L.rooms.findIdx? (fun room => room.room_type == RoomType.living_room) with
    | none => rfl
    | some mainIdx =>
      rcases hmem : L.rooms[mainIdx]? with _ | main <;>
        simp [hmem, hallwayLoop_rooms]

/-- C5: for every footprint, requirement map, configuration and random state
— given that random.random yields values in [0,1) and that the square root
of a positive number is positive — generate_random_layout terminates
normally without raising, and the room count of the returned layout is at
most the total requested count (a room fitting neither a free region nor a
grid position is silently dropped, so it can be strictly smaller). -/
theorem C5_generate_no_raise_count_bound (cfg : MonteCarloConfig)
    (cons : LayoutConstraints) (sq : ℚ → ℚ) (addr : ℕ → ℕ) (bounds : Rectangle)
    (reqs : List (RoomType × ℕ)) (r : RandSrc)
    (hsq : ∀ x : ℚ, 0 < x → 0 < sq x) (hr : r.QRange) :
    ∃ L, generate_random_layout cfg cons sq addr bounds reqs r = some L ∧
      L.rooms.length ≤ (reqs.map fun p => p.2).sum := by
  obtain ⟨v, hv, hlen, _⟩ := sampleRooms_some hsq reqs r hr
  refine ⟨_, by rw [generate_random_layout, hv, Option.map_some'], ?_⟩
  rw [add_hallways_rooms]
  have hfold := place_fold_rooms_le cfg addr (pyshuffle v.2 v.1).1
    ⟨{ bounds := bounds }, [({ bounds := bounds } : Layout).bounds],
      (pyshuffle v.2 v.1).2, 0⟩
  calc (place_rooms_rectangular_split cfg addr { bounds := bounds }
        (pyshuffle v.2 v.1).1 (pyshuffle v.2 v.1).2).layout.rooms.length ≤
      0 + (pyshuffle v.2 v.1).1.length := hfold
    _ = (reqs.map fun p => p.2).sum := by rw [pyshuffle_length, hlen]; omega

/-- C5 witness: a concrete generation run for a 20 x 15 footprint and the
standard five-room requirement, with a zeroed random stream and the identity
standing in for the square root. -/
theorem C5_generate_no_raise_count_bound_witness :
    ∃ L, generate_random_layout {} {} (fun q => q) (fun n => n) ⟨0, 0, 20, 15⟩
      [(RoomType.living_room, 1), (RoomType.bedroom, 2), (RoomType.kitchen, 1),
        (RoomType.bathroom, 1)] ⟨fun _ => 0, fun _ => 0⟩ = some L ∧
      L.rooms.length ≤ 5 := by
  obtain ⟨L, hL, hlen⟩ := C5_generate_no_raise_count_bound {} {} (fun q => q)
    (fun n => n) ⟨0, 0, 20, 15⟩
    [(RoomType.living_room, 1), (RoomType.bedroom, 2), (RoomType.kitchen, 1),
      (RoomType.bathroom, 1)] ⟨fun _ => 0, fun _ => 0⟩
    (fun x hx => hx) (fun n => by norm_num)
  exact ⟨L, hL, by simpa using hlen⟩

/-- A room with its address-derived identity erased (all other fields kept). -/
def Room.eraseId (r : Room) : Room := { r with id := 0 }

/-- A layout with every room identity erased. -/
def Layout.eraseIds (L : Layout) : Layout :=
  { L with rooms := L.rooms.map Room.eraseId }

theorem eraseIds_parts {L1 L2 : Layout} (h : L1.eraseIds = L2.eraseIds) :
    L1.bounds = L2.bounds ∧
    L1.rooms.map Room.eraseId = L2.rooms.map Room.eraseId ∧
    L1.hallways = L2.hallways ∧ L1.fitness_score = L2.fitness_score ∧
    L1.generation_id = L2.generation_id ∧ L1.metadata = L2.metadata := by
  have hb := congrArg Layout.bounds h
  have hr := congrArg Layout.rooms h
  have hh := congrArg Layout.hallways h
  have hf := congrArg Layout.fitness_score h
  have hg := congrArg Layout.generation_id h
  have hm := congrArg Layout.metadata h
  simp only [Layout.eraseIds] at hb hr hh hf hg hm
  exact ⟨hb, hr, hh, hf, hg, hm⟩

theorem eraseIds_of_parts {L1 L2 : Layout} (hb : L1.bounds = L2.bounds)
    (hr : L1.rooms.map Room.eraseId = L2.rooms.map Room.eraseId)
    (hh : L1.hallways = L2.hallways) (hf : L1.fitness_score = L2.fitness_score)
    (hg : L1.generation_id = L2.generation_id) (hm : L1.metadata = L2.metadata) :
    L1.eraseIds = L2.eraseIds := by
  simp [Layout.eraseIds, hb, hr, hh, hf, hg, hm]

theorem bounds_map_of_eraseId {l1 l2 : List Room}
    (h : l1.map Room.eraseId = l2.map Room.eraseId) :
    l1.map Room.bounds = l2.map Room.bounds := by
  have := congrArg (List.map (fun r : Room => r.bounds)) h
  simpa [List.map_map, Function.comp, Room.eraseId] using this

theorem intersects_any_congr {l1 l2 : List Room}
    (h : l1.map Room.bounds = l2.map Room.bounds) (cand : Rectangle) :
    (l1.all fun room => !cand.intersects room.bounds) =
    (l2.all fun room => !cand.intersects room.bounds) := by
  induction l1 generalizing l2 with
  | nil => cases l2 with | nil => rfl | cons b t2 => simp at h
  | cons a t ih =>
    cases l2 with
    | nil => simp at h
    | cons b t2 =>
      simp only [List.map_cons, List.cons.injEq] at h
      simp [List.all_cons, h.1, ih h.2]

theorem compactCandidate_congr (cfg : MonteCarloConfig) {L1 L2 : Layout}
    (hb : L1.bounds = L2.bounds)
    (hr : L1.rooms.map Room.eraseId = L2.rooms.map Room.eraseId)
    (w h : ℚ) (row col : ℕ) :
    compactCandidate cfg L1 w h row col = compactCandidate cfg L2 w h row col := by
  unfold compactCandidate
  rw [hb]
  simp only [intersects_any_congr (bounds_map_of_eraseId hr)]

theorem compact_place_room_congr (cfg : MonteCarloConfig) {L1 L2 : Layout}
    (hL : L1.eraseIds = L2.eraseIds) (t : RoomType) (w h : ℚ)
    (addr1 addr2 : ℕ → ℕ) (apos : ℕ) :
    (compact_place_room cfg L1 t w h addr1 apos).1.eraseIds =
      (compact_place_room cfg L2 t w h addr2 apos).1.eraseIds ∧
    (compact_place_room cfg L1 t w h addr1 apos).2 =
      (compact_place_room cfg L2 t w h addr2 apos).2 := by
  obtain ⟨hb, hr, hh, hf, hg, hm⟩ := eraseIds_parts hL
  unfold compact_place_room
  rw [hb]
  simp only [fun row col => compactCandidate_congr cfg hb hr w h row col]
  cases (List.range (pytrunc (L2.bounds.height / 1)).toNat).findSome? (fun row =>
      (List.range (pytrunc (L2.bounds.width / 1)).toNat).findSome? fun col =>
        compactCandidate cfg L2 w h row col) with
  | none => exact ⟨hL, rfl⟩
  | some cand =>
    refine ⟨?_, rfl⟩
    exact eraseIds_of_parts hb (by simp [Layout.add_room, hr, Room.create, Room.eraseId])
      (by simp [Layout.add_room, hh]) (by simp [Layout.add_room, hf])
      (by simp [Layout.add_room, hg]) (by simp [Layout.add_room, hm])

/-- The relation preserved by the placement fold under two different address
allocators: equal layouts up to room identities, and equal free regions,
random state and allocation position. -/
def GenRel (s1 s2 : GenState) : Prop :=
  s1.layout.eraseIds = s2.layout.eraseIds ∧ s1.spaces = s2.spaces ∧
  s1.rand = s2.rand ∧ s1.apos = s2.apos

theorem placeStep_congr (cfg : MonteCarloConfig) (addr1 addr2 : ℕ → ℕ)
    {s1 s2 : GenState} (h : GenRel s1 s2) (item : RoomType × ℚ × ℚ) :
    GenRel (placeStep cfg addr1 s1 item) (placeStep cfg addr2 s2 item) := by
  obtain ⟨hL, hsp, hrand, hapos⟩ := h
  obtain ⟨hb, hr, hh, hf, hg, hm⟩ := eraseIds_parts hL
  unfold placeStep
  rw [hsp]
  cases firstFit cfg item.2.1 item.2.2 s2.spaces with
  | some pre =>
    rw [hrand, hapos]
    refine ⟨?_, rfl, rfl, rfl⟩
    exact eraseIds_of_parts hb
      (by simp [Layout.add_room, hr, Room.create, Room.eraseId])
      (by simp [Layout.add_room, hh]) (by simp [Layout.add_room, hf])
      (by simp [Layout.add_room, hg]) (by simp [Layout.add_room, hm])
  | none =>
    rw [hapos, hrand]
    have hc := compact_place_room_congr cfg hL item.1 item.2.1 item.2.2
      addr1 addr2 s2.apos
    exact ⟨hc.1, rfl, rfl, hc.2⟩

theorem place_fold_congr (cfg : MonteCarloConfig) (addr1 addr2 : ℕ → ℕ) :
    ∀ (items : List (RoomType × ℚ × ℚ)) {s1 s2 : GenState}, GenRel s1 s2 →
      GenRel (items.foldl (placeStep cfg addr1) s1)
        (items.foldl (placeStep cfg addr2) s2) := by
  intro items
  induction items with
  | nil => exact fun h => h
  | cons a t ih =>
    intro s1 s2 h
    exact ih (placeStep_congr cfg addr1 addr2 h a)

theorem findIdx_living_congr {l1 l2 : List Room}
    (h : l1.map Room.eraseId = l2.map Room.eraseId) :
    l1.findIdx? (fun room => room.room_type == RoomType.living_room) =
    l2.findIdx? (fun room => room.room_type == RoomType.living_room) := by
  have h1 := congrArg
    (List.findIdx? (fun room => room.room_type == RoomType.living_room)) h
  simpa [List.findIdx?_map, Function.comp, Room.eraseId] using h1

theorem getElem?_eraseId {l1 l2 : List Room}
    (h : l1.map Room.eraseId = l2.map Room.eraseId) (i : ℕ) :
    l1[i]?.map Room.eraseId = l2[i]?.map Room.eraseId := by
  have h1 := congrArg (fun l : List Room => l[i]?) h
  simpa [List.getElem?_map] using h1

theorem length_eraseId {l1 l2 : List Room}
    (h : l1.map Room.eraseId = l2.map Room.eraseId) : l1.length = l2.length := by
  have h1 := congrArg List.length h
  simpa using h1

theorem enum_eraseId {l1 l2 : List Room}
    (h : l1.map Room.eraseId = l2.map Room.eraseId) :
    l1.enum.map (Prod.map id Room.eraseId) =
    l2.enum.map (Prod.map id Room.eraseId) := by
  have h1 := congrArg List.enum h
  rw [List.enum_map, List.enum_map] at h1
  exact h1

theorem add_hallway_eraseIds {L1 L2 : Layout} (hL : L1.eraseIds = L2.eraseIds)
    {x1 x2 : Rectangle} (hx : x1 = x2) :
    (L1.add_hallway x1).eraseIds = (L2.add_hallway x2).eraseIds := by
  obtain ⟨hb, hr, hh, hf, hg, hm⟩ := eraseIds_parts hL
  exact eraseIds_of_parts (by simpa [Layout.add_hallway] using hb)
    (by simpa [Layout.add_hallway] using hr)
    (by simp [Layout.add_hallway, hh, hx]) (by simpa [Layout.add_hallway] using hf)
    (by simpa [Layout.add_hallway] using hg) (by simpa [Layout.add_hallway] using hm)

theorem hallwayLoop_congr (hw : ℚ) {m1 m2 : Room} (hm : m1.bounds = m2.bounds)
    (mainIdx : ℕ) :
    ∀ {ps1 ps2 : List (ℕ × Room)},
      ps1.map (Prod.map id Room.eraseId) = ps2.map (Prod.map id Room.eraseId) →
      ∀ {L1 L2 : Layout}, L1.eraseIds = L2.eraseIds → ∀ r : RandSrc,
        (hallwayLoop hw m1 mainIdx ps1 L1 r).1.eraseIds =
          (hallwayLoop hw m2 mainIdx ps2 L2 r).1.eraseIds := by
  intro ps1
  induction ps1 with
  | nil =>
    intro ps2 h
    cases ps2 with
    | nil => intro L1 L2 hL r; exact hL
    | cons q t => simp at h
  | cons p rest ih =>
    intro ps2 h
    cases ps2 with
    | nil => simp at h
    | cons q rest2 =>
      simp only [List.map_cons, List.cons.injEq] at h
      obtain ⟨hpq, hrest⟩ := h
      intro L1 L2 hL r
      obtain ⟨i, room⟩ := p
      obtain ⟨j, room2⟩ := q
      simp only [Prod.map, id_eq, Prod.mk.injEq] at hpq
      obtain ⟨hij, hre⟩ := hpq
      have hroomb : room.bounds = room2.bounds := by
        have h2 := congrArg Room.bounds hre
        simpa [Room.eraseId] using h2
      subst hij
      unfold hallwayLoop
      by_cases hidx : i = mainIdx
      · simp only [hidx, if_pos]
        exact ih hrest hL r
      · simp only [hidx, if_false, RandSrc.nextQ]
        by_cases hc : r.qs 0 < 0.3
        · simp only [hc, if_true]
          exact ih hrest (add_hallway_eraseIds hL (by rw [hm, hroomb])) _
        · simp only [hc, if_false]
          exact ih hrest hL _

theorem add_hallways_congr (cons : LayoutConstraints) {L1 L2 : Layout}
    (hL : L1.eraseIds = L2.eraseIds) (r : RandSrc) :
    (add_hallways cons L1 r).1.eraseIds = (add_hallways cons L2 r).1.eraseIds := by
  obtain ⟨hb, hr, hh, hf, hg, hm⟩ := eraseIds_parts hL
  have hlen : L1.rooms.length = L2.rooms.length := length_eraseId hr
  unfold add_hallways
  rw [hlen, findIdx_living_congr hr]
  by_cases h2 : L2.rooms.length < 2
  · simp only [h2, if_true]
    exact hL
  · simp only [h2, if_false]
    cases hidx : L2.rooms.findIdx?
        (fun room => room.room_type == RoomType.living_room) with
    | none => exact hL
    | some mainIdx =>
      have hget := getElem?_eraseId hr mainIdx
      rcases hm1 : L1.rooms[mainIdx]? with _ | m1 <;>
        rcases hm2 : L2.rooms[mainIdx]? with _ | m2
      · simp only [hm1, hm2]
        exact hL
      · rw [hm1, hm2] at hget; simp at hget
      · rw [hm1, hm2] at hget; simp at hget
      · rw [hm1, hm2] at hget
        simp only [Option.map_some', Option.some.injEq] at hget
        have hmb : m1.bounds = m2.bounds := by
          have h3 := congrArg Room.bounds hget
          simpa [Room.eraseId] using h3
        simp only [hm1, hm2]
        exact hallwayLoop_congr cons.min_hallway_width hmb mainIdx
          (enum_eraseId hr) hL r

/-- C9 (amended): two runs of generate_random_layout from identical random
state produce layouts that are identical in footprint, hallways, room count,
room order and every room field except id; the id field holds the CPython
object address assigned at creation and is not determined by the random
state, so it can differ between the two runs. -/
theorem C9_determinism_modulo_id (cfg : MonteCarloConfig)
    (cons : LayoutConstraints) (sq : ℚ → ℚ) (bounds : Rectangle)
    (reqs : List (RoomType × ℕ)) (r : RandSrc) (a1 a2 : ℕ → ℕ) :
    (generate_random_layout cfg cons sq a1 bounds reqs r).map Layout.eraseIds =
    (generate_random_layout cfg cons sq a2 bounds reqs r).map Layout.eraseIds := by
  unfold generate_random_layout
  cases hs : sampleRooms sq reqs r with
  | none => rfl
  | some v =>
    simp only [Option.map_some']
    have hfold := @place_fold_congr cfg a1 a2 (pyshuffle v.2 v.1).1
      ⟨{ bounds := bounds }, [({ bounds := bounds } : Layout).bounds],
        (pyshuffle v.2 v.1).2, 0⟩
      ⟨{ bounds := bounds }, [({ bounds := bounds } : Layout).bounds],
        (pyshuffle v.2 v.1).2, 0⟩ ⟨rfl, rfl, rfl, rfl⟩
    obtain ⟨hfl, _, hfr, _⟩ := hfold
    congr 1
    calc (add_hallways cons
          (place_rooms_rectangular_split cfg a1 { bounds := bounds }
            (pyshuffle v.2 v.1).1 (pyshuffle v.2 v.1).2).layout
          (place_rooms_rectangular_split cfg a1 { bounds := bounds }
            (pyshuffle v.2 v.1).1 (pyshuffle v.2 v.1).2).rand).1.eraseIds =
        (add_hallways cons
          (place_rooms_rectangular_split cfg a2 { bounds := bounds }
            (pyshuffle v.2 v.1).1 (pyshuffle v.2 v.1).2).layout
          (place_rooms_rectangular_split cfg a1 { bounds := bounds }
            (pyshuffle v.2 v.1).1 (pyshuffle v.2 v.1).2).rand).1.eraseIds :=
          add_hallways_congr cons hfl _
      _ = (add_hallways cons
          (place_rooms_rectangular_split cfg a2 { bounds := bounds }
            (pyshuffle v.2 v.1).1 (pyshuffle v.2 v.1).2).layout
          (place_rooms_rectangular_split cfg a2 { bounds := bounds }
            (pyshuffle v.2 v.1).1 (pyshuffle v.2 v.1).2).rand).1.eraseIds := by
          rw [show (place_rooms_rectangular_split cfg a1 { bounds := bounds }
            (pyshuffle v.2 v.1).1 (pyshuffle v.2 v.1).2).rand =
            (place_rooms_rectangular_split cfg a2 { bounds := bounds }
            (pyshuffle v.2 v.1).1 (pyshuffle v.2 v.1).2).rand from hfr]

/-- C9 counterexample: two runs with identical random state but the object
addresses of a different process run produce room lists that differ in their
id fields, so the room lists are not bit-identical as claimed. -/
theorem C9_room_id_counterexample :
    (generate_random_layout {} {} (fun q => q) (fun _ => 1) ⟨0, 0, 20, 15⟩
        [(RoomType.bathroom, 1)] ⟨fun _ => 0, fun _ => 0⟩).map
      (fun L => L.rooms.map Room.id) ≠
    (generate_random_layout {} {} (fun q => q) (fun _ => 2) ⟨0, 0, 20, 15⟩
        [(RoomType.bathroom, 1)] ⟨fun _ => 0, fun _ => 0⟩).map
      (fun L => L.rooms.map Room.id) := by
  norm_num [generate_random_layout, sampleRooms, sampleCount, generate_random_size,
    RandSrc.uniform, RandSrc.nextQ, RandSrc.dropN, pydiv, roomTemplates, pyshuffle,
    shuffleAux, place_rooms_rectangular_split, placeStep, firstFit,
    can_place_room_in_space, choose_position_in_space, split_space, Room.create,
    add_hallways, Layout.add_room, Layout.add_hallway, ge_iff_le,
    decide_eq_true_eq, Bool.and_eq_true]

/-- One best-tracking step of MonteCarloOptimizer.optimize: the recorded best
pair is replaced by a deep copy of the iteration top exactly when the top
score strictly exceeds the recorded best score. -/
def bestStep (alloc : ℕ → ℕ → ℕ) (k : ℕ) (best cand : Layout × ℚ) :
    Layout × ℚ :=
  if cand.2 > best.2 then (cand.1.copy (alloc k), cand.2) else best

/-- The main optimize loop abstracted over the per-iteration population tops
(the evaluated_population[0] pairs after environmental selection): each
iteration updates the best pair and then appends the recorded best score to
score_history. -/
def bestLoop (alloc : ℕ → ℕ → ℕ) : ℕ → Layout × ℚ → List (Layout × ℚ) →
    (Layout × ℚ) × List ℚ
  | _, best, [] => (best, [])
  | k, best, c :: cs =>
    let b := bestStep alloc k best c
    let rest := bestLoop alloc (k + 1) b cs
    (rest.1, b.2 :: rest.2)

/-- MonteCarloOptimizer.optimize with the population dynamics abstracted: a
nonempty initial evaluated population seeds the best pair with a deep copy
of its top element; an empty one leaves best_layout as None (and the real
loop would fail at evaluated_population[0]).  Returns the final best layout,
best score, and score_history. -/
def optimizeBest (alloc : ℕ → ℕ → ℕ) (evalPop tops : List (Layout × ℚ)) :
    Option (Layout × ℚ × List ℚ) :=
  match evalPop with
  | [] => none
  | p :: _ =>
    let res := bestLoop alloc 1 (p.1.copy (alloc 0), p.2) tops
    some (res.1.1, res.1.2, res.2)

/-- Number of tournament-selected parent slots:
int(population_size * (1 - elite_ratio)). -/
def numParents (cfg : MonteCarloConfig) : ℕ :=
  (pytrunc ((cfg.population_size : ℚ) * (1 - cfg.elite_ratio))).toNat

/-- Number of elite slots: int(population_size * elite_ratio). -/
def numElites (cfg : MonteCarloConfig) : ℕ :=
  (pytrunc ((cfg.population_size : ℚ) * cfg.elite_ratio)).toNat

/-- Draw k elements without replacement from a pool (the sampling scheme
behind random.sample): each step picks an index into the shrinking pool from
the integer stream at offsets i, i+1, ... -/
def drawDistinct (d : ℕ → ℕ) : ℕ → ℕ → List α → List α
  | _, 0, _ => []
  | _, _ + 1, [] => []
  | i, k + 1, a :: pool =>
    let j := d i % (a :: pool).length
    (a :: pool).get ⟨j, Nat.mod_lt _ (Nat.succ_pos _)⟩ ::
      drawDistinct d (i + 1) k ((a :: pool).eraseIdx j)

/-- random.sample(pop, k): raises ValueError when k exceeds the population
size; otherwise k distinct elements drawn via the integer stream. -/
def pysample (pop : List α) (k : ℕ) (d : ℕ → ℕ) : Option (List α) :=
  if k ≤ pop.length then some (drawDistinct d 0 k pop) else none

/-- Python max(tournament, key=score): the first element attaining the
maximal score. -/
def pymaxByScore : List (Layout × ℚ) → Option (Layout × ℚ)
  | [] => none
  | x :: xs => some (xs.foldl (fun acc y => if y.2 > acc.2 then y else acc) x)

/-- MonteCarloOptimizer._select_parents: num_parents tournament slots — each
the deep-copied winner of a random.sample of 3 from the evaluated population
— followed by deep copies of the first elite_count population entries (the
top scorers, the caller passing the population sorted descending). -/
def select_parents (cfg : MonteCarloConfig) (pop : List (Layout × ℚ))
    (d : ℕ → ℕ) (alloc : ℕ → ℕ → ℕ) : Option (List Layout) :=
  (omap (fun j => (pysample pop 3 fun i => d (3 * j + i)).bind fun t =>
      (pymaxByScore t).map fun w => w.1.copy (alloc j))
    (List.range (numParents cfg))).bind fun slots =>
  (omap (fun i => (pop[i]?).map fun p => p.1.copy (alloc (numParents cfg + i)))
    (List.range (numElites cfg))).map fun elites => slots ++ elites

/-- The position-jitter operator of _mutate: one room chosen by an integer
draw, offsets drawn in [-2, 2], clamped at the footprint origin and accepted
only when the moved room stays inside the footprint. -/
def mutatePosition (mutated : Layout) (bounds : Rectangle) (r : RandSrc) :
    Layout × RandSrc :=
  if mutated.rooms = [] then (mutated, r)
  else
    let (c, r1) := r.nextN
    let idx := c % mutated.rooms.length
    match mutated.rooms[idx]? with
    | none => (mutated, r1)
    | some room =>
      let (dx, r2) := r1.uniform (-2) 2
      let (dy, r3) := r2.uniform (-2) 2
      let new_bounds := Rectangle.mk (max bounds.x (room.bounds.x + dx))
        (max bounds.y (room.bounds.y + dy)) room.bounds.width room.bounds.height
      if new_bounds.right ≤ bounds.right ∧ new_bounds.bottom ≤ bounds.bottom then
        let rooms2 := mutated.rooms.set idx { room with bounds := new_bounds }
        ({ mutated with rooms := rooms2 }, r3)
      else (mutated, r3)

/-- The size-jitter operator of _mutate: width/height deltas in [-1, 1],
floored at 3, accepted only when the grown room stays inside the
footprint. -/
def mutateSize (mutated : Layout) (bounds : Rectangle) (r : RandSrc) :
    Layout × RandSrc :=
  if mutated.rooms = [] then (mutated, r)
  else
    let (c, r1) := r.nextN
    let idx := c % mutated.rooms.length
    match mutated.rooms[idx]? with
    | none => (mutated, r1)
    | some room =>
      let (dw, r2) := r1.uniform (-1) 1
      let (dh, r3) := r2.uniform (-1) 1
      let new_width := max 3 (room.bounds.width + dw)
      let new_height := max 3 (room.bounds.height + dh)
      if room.bounds.x + new_width ≤ bounds.right ∧
          room.bounds.y + new_height ≤ bounds.bottom then
        let nb := Rectangle.mk room.bounds.x room.bounds.y new_width new_height
        let rooms2 := mutated.rooms.set idx { room with bounds := nb }
        ({ mutated with rooms := rooms2 }, r3)
      else (mutated, r3)

/-- The bounds-swap operator of _mutate: two distinct rooms sampled, their
bounds exchanged; skipped with fewer than two rooms. -/
def mutateSwap (mutated : Layout) (r : RandSrc) : Layout × RandSrc :=
  if mutated.rooms.length ≥ 2 then
    match drawDistinct r.ns 0 2 (List.range mutated.rooms.length) with
    | [i1, i2] =>
      match mutated.rooms[i1]?, mutated.rooms[i2]? with
      | some ra, some rb =>
        let rooms2 := (mutated.rooms.set i1 { ra with bounds := rb.bounds }).set
          i2 { rb with bounds := ra.bounds }
        ({ mutated with rooms := rooms2 }, r.dropN 2)
      | _, _ => (mutated, r.dropN 2)
    | _ => (mutated, r.dropN 2)
  else (mutated, r)

/-- The remove-one/add-one operator of _mutate: drop a room chosen by an
integer draw, then add a freshly sampled room of a random required type at a
random position.  The required-type choice raises (none) when the
requirement dict is empty, and the size sampler can raise. -/
def mutateAddRemove (sq : ℚ → ℚ) (addr : ℕ → ℕ)
    (apos : ℕ) (mutated : Layout) (bounds : Rectangle)
    (reqs : List (RoomType × ℕ)) (r : RandSrc) :
    Option (Layout × RandSrc × ℕ) :=
  if mutated.rooms.length ≥ 2 then
    let (c, r1) := r.nextN
    let erased := mutated.rooms.eraseIdx (c % mutated.rooms.length)
    let removed := { mutated with rooms := erased }
    let (c2, r2) := r1.nextN
    (reqs[c2 % reqs.length]?).bind fun p =>
      (generate_random_size (roomTemplates p.1) sq r2).bind fun sz =>
        let (x, r3) := sz.2.uniform bounds.x (bounds.right - sz.1.1)
        let (y, r4) := r3.uniform bounds.y (bounds.bottom - sz.1.2)
        let nr := Room.create p.1 (Rectangle.mk x y sz.1.1 sz.1.2) 0 none (addr apos)
        let rooms2 := removed.rooms ++ [nr]
        some ({ removed with rooms := rooms2 }, r4, apos + 1)
  else some (mutated, r, apos)

/-- MonteCarloOptimizer._mutate: deep-copy the layout, then apply one of the
four operators chosen uniformly by an integer draw.  A none models a raised
exception, possible only in the add/remove branch. -/
def mutate (sq : ℚ → ℚ) (addr : ℕ → ℕ) (apos : ℕ)
    (layout : Layout) (bounds : Rectangle) (reqs : List (RoomType × ℕ))
    (r : RandSrc) : Option (Layout × RandSrc × ℕ) :=
  let mutated := layout.copy (fun i => addr (apos + i))
  let apos1 := apos + layout.rooms.length
  let (mt, r1) := r.nextN
  match mt % 4 with
  | 0 => some ((mutatePosition mutated bounds r1).1,
      (mutatePosition mutated bounds r1).2, apos1)
  | 1 => some ((mutateSize mutated bounds r1).1,
      (mutateSize mutated bounds r1).2, apos1)
  | 2 => some ((mutateSwap mutated r1).1, (mutateSwap mutated r1).2, apos1)
  | _ => mutateAddRemove sq addr apos1 mutated bounds reqs r1

/-- The per-type instance loop of _crossover: for each of count instances a
coin is drawn; below 0.5 with a nonempty parent1 pool the instance comes
cyclically from parent1, otherwise from parent2 when its pool is nonempty,
otherwise it is omitted.  The cyclic accesses are embedded as checked
lookups (a none would model an IndexError). -/
def crossoverPickLoop (p1r p2r : List Room) :
    ℕ → ℕ → RandSrc → Option (List Room × RandSrc)
  | 0, _, r => some ([], r)
  | c + 1, i, r =>
    let (coin, r1) := r.nextQ
    if coin < 0.5 ∧ p1r ≠ [] then
      (p1r[i % p1r.length]?).bind fun room =>
        (crossoverPickLoop p1r p2r c (i + 1) r1).map fun rest =>
          (room :: rest.1, rest.2)
    else if p2r ≠ [] then
      (p2r[i % p2r.length]?).bind fun room =>
        (crossoverPickLoop p1r p2r c (i + 1) r1).map fun rest =>
          (room :: rest.1, rest.2)
    else crossoverPickLoop p1r p2r c (i + 1) r1

/-- The per-requirement loop of _crossover: the selected instances (truncated
to count) are appended to the child as freshly constructed rooms sharing the
source bounds. -/
def crossoverTypesLoop (parent1 parent2 : Layout) (addr : ℕ → ℕ) :
    List (RoomType × ℕ) → Layout → ℕ → RandSrc → Option (Layout × ℕ × RandSrc)
  | [], child, apos, r => some (child, apos, r)
  | (t, count) :: rest, child, apos, r =>
    (crossoverPickLoop (parent1.get_rooms_by_type t)
        (parent2.get_rooms_by_type t) count 0 r).bind fun pick =>
      let cp := (pick.1.take count).foldl (fun (ch : Layout × ℕ) room =>
        (ch.1.add_room (Room.create room.room_type room.bounds 0 none
          (addr ch.2)), ch.2 + 1)) (child, apos)
      crossoverTypesLoop parent1 parent2 addr rest cp.1 cp.2 pick.2

/-- MonteCarloOptimizer._crossover (the try body): build the child from the
two parents, then mutate it when the trailing coin falls below the mutation
rate.  A none models an exception, which the surrounding except turns into a
returned None. -/
def crossover (cfg : MonteCarloConfig) (sq : ℚ → ℚ) (addr : ℕ → ℕ) (apos : ℕ)
    (parent1 parent2 : Layout) (bounds : Rectangle)
    (reqs : List (RoomType × ℕ)) (r : RandSrc) :
    Option (Layout × RandSrc × ℕ) :=
  (crossoverTypesLoop parent1 parent2 addr reqs { bounds := bounds } apos
      r).bind fun res =>
    let (coin, r1) := res.2.2.nextQ
    if coin < cfg.mutation_rate then
      mutate sq addr res.2.1 res.1 bounds reqs r1
    else some (res.1, r1, res.2.1)

/-- The offspring loop of _generate_offspring, abstracted over the attempt
outcome mk (Some child from a successful crossover or mutation, None from a
crossover failure): None attempts are discarded and retried, children are
collected until population_size is reached; fuel bounds the attempts, since
the Python while loop terminates only when enough attempts succeed. -/
def generate_offspring_loop (mk : ℕ → Option Layout) (popsize : ℕ) :
    ℕ → ℕ → List Layout → List Layout
  | 0, _, acc => acc
  | fuel + 1, attempt, acc =>
    if acc.length < popsize then
      match mk attempt with
      | some child =>
        generate_offspring_loop mk popsize fuel (attempt + 1) (acc ++ [child])
      | none => generate_offspring_loop mk popsize fuel (attempt + 1) acc
    else acc

/-- MonteCarloOptimizer._generate_offspring under the same abstraction,
including the final truncation offspring[:population_size]. -/
def generate_offspring (mk : ℕ → Option Layout) (popsize fuel : ℕ) :
    List Layout :=
  (generate_offspring_loop mk popsize fuel 0 []).take popsize

theorem bestStep_le (alloc : ℕ → ℕ → ℕ) (k : ℕ) (best cand : Layout × ℚ) :
    best.2 ≤ (bestStep alloc k best cand).2 := by
  unfold bestStep
  by_cases h : cand.2 > best.2
  · rw [if_pos h]; exact le_of_lt h
  · rw [if_neg h]

theorem bestLoop_chain (alloc : ℕ → ℕ → ℕ) :
    ∀ (tops : List (Layout × ℚ)) (k : ℕ) (best : Layout × ℚ),
      List.Chain' (· ≤ ·) (bestLoop alloc k best tops).2 ∧
      ∀ x ∈ (bestLoop alloc k best tops).2, best.2 ≤ x := by
  intro tops
  induction tops with
  | nil => intro k best; exact ⟨List.chain'_nil, by simp [bestLoop]⟩
  | cons c cs ih =>
    intro k best
    obtain ⟨hch, hall⟩ := ih (k + 1) (bestStep alloc k best c)
    have hstep := bestStep_le alloc k best c
    constructor
    · show List.Chain' (· ≤ ·) ((bestStep alloc k best c).2 ::
        (bestLoop alloc (k + 1) (bestStep alloc k best c) cs).2)
      refine List.chain'_cons'.mpr ⟨fun y hy => hall y (List.mem_of_mem_head? hy), hch⟩
    · intro x hx
      have hx' : x = (bestStep alloc k best c).2 ∨
          x ∈ (bestLoop alloc (k + 1) (bestStep alloc k best c) cs).2 :=
        List.mem_cons.mp hx
      rcases hx' with h | h
      · rw [h]; exact hstep
      · exact le_trans hstep (hall x h)

/-- C2: in every run of the optimize loop — any initial evaluated population,
any sequence of per-iteration population tops, any copy allocator — the
recorded score_history is non-decreasing, because the best score is replaced
only when the new top score strictly exceeds it. -/
theorem C2_score_history_monotone (alloc : ℕ → ℕ → ℕ)
    (evalPop tops : List (Layout × ℚ)) (B : Layout) (s : ℚ) (hist : List ℚ)
    (hrun : optimizeBest alloc evalPop tops = some (B, s, hist)) (i : ℕ)
    (h1 : i < hist.length) (h2 : i + 1 < hist.length) :
    hist.get ⟨i, h1⟩ ≤ hist.get ⟨i + 1, h2⟩ := by
  cases evalPop with
  | nil => simp [optimizeBest] at hrun
  | cons p rest =>
    simp only [optimizeBest, Option.some.injEq, Prod.mk.injEq] at hrun
    obtain ⟨hB, hs, hh⟩ := hrun
    subst hh
    have hch := (bestLoop_chain alloc tops 1 (p.1.copy (alloc 0), p.2)).1
    exact List.chain'_iff_get.mp hch i (by omega)

/-- A bare one-by-one footprint layout used as a concrete optimizer input. -/
def emptyLay : Layout := { bounds := ⟨0, 0, 1, 1⟩ }

/-- C2 witness: a two-iteration run whose history is [2, 2]. -/
theorem C2_score_history_monotone_witness :
    optimizeBest (fun _ _ => 0) [(emptyLay, 1)] [(emptyLay, 2), (emptyLay, 0)] =
      some (emptyLay, 2, [2, 2]) ∧
    ([2, 2] : List ℚ).get ⟨0, by norm_num⟩ ≤ ([2, 2] : List ℚ).get ⟨1, by norm_num⟩ := by
  have hrun : optimizeBest (fun _ _ => 0) [(emptyLay, 1)]
      [(emptyLay, 2), (emptyLay, 0)] = some (emptyLay, 2, [2, 2]) := by
    norm_num [optimizeBest, bestLoop, bestStep, Layout.copy, copyRooms, emptyLay]
  exact ⟨hrun, C2_score_history_monotone (fun _ _ => 0) [(emptyLay, 1)]
    [(emptyLay, 2), (emptyLay, 0)] emptyLay 2 [2, 2] hrun 0 (by norm_num)
    (by norm_num)⟩

theorem copyRooms_length (ids : ℕ → ℕ) :
    ∀ (rooms : List Room) (k : ℕ), (copyRooms ids rooms k).length = rooms.length := by
  intro rooms
  induction rooms with
  | nil => intro k; rfl
  | cons r rs ih => intro k; simp [copyRooms, ih]

theorem copyRooms_get (ids : ℕ → ℕ) :
    ∀ (rooms : List Room) (k i : ℕ) (h1 : i < (copyRooms ids rooms k).length)
      (h2 : i < rooms.length),
      (copyRooms ids rooms k).get ⟨i, h1⟩ =
        Room.create (rooms.get ⟨i, h2⟩).room_type (rooms.get ⟨i, h2⟩).bounds
          (rooms.get ⟨i, h2⟩).min_area (rooms.get ⟨i, h2⟩).orientation
          (ids (k + i)) := by
  intro rooms
  induction rooms with
  | nil => intro k i h1 h2; simp at h2
  | cons r rs ih =>
    intro k i h1 h2
    cases i with
    | zero => simp [copyRooms]
    | succ i =>
      have h1' : i < (copyRooms ids rs (k + 1)).length := by
        simpa [copyRooms] using h1
      have h2' : i < rs.length := by simpa using h2
      have heq := ih (k + 1) i h1' h2'
      show (copyRooms ids rs (k + 1)).get ⟨i, h1'⟩ = _
      rw [heq, show k + 1 + i = k + (i + 1) from by omega]
      rfl

theorem bestLoop_fitness (alloc : ℕ → ℕ → ℕ) :
    ∀ (tops : List (Layout × ℚ)) (k : ℕ) (best : Layout × ℚ),
      best.1.fitness_score = 0 →
      ((bestLoop alloc k best tops).1).1.fitness_score = 0 := by
  intro tops
  induction tops with
  | nil => intro k best h; exact h
  | cons c cs ih =>
    intro k best h
    apply ih
    unfold bestStep
    split
    · rfl
    · exact h

/-- C10: Layout.copy returns a layout with the same footprint, hallways and
room list shape — same length and order, equal room types and bounds — but
fitness_score 0 and rooms whose doors, windows and furniture lists are empty
regardless of the source; consequently the best layout returned by the
optimize loop, always a copy, has fitness_score 0 even when the best score
is positive. -/
theorem C10_copy_resets_fitness :
    (∀ (L : Layout) (ids : ℕ → ℕ),
      (L.copy ids).fitness_score = 0 ∧ (L.copy ids).bounds = L.bounds ∧
      (L.copy ids).hallways = L.hallways ∧
      (L.copy ids).rooms.length = L.rooms.length ∧
      ∀ (i : ℕ) (h1 : i < (L.copy ids).rooms.length) (h2 : i < L.rooms.length),
        ((L.copy ids).rooms.get ⟨i, h1⟩).room_type =
          (L.rooms.get ⟨i, h2⟩).room_type ∧
        ((L.copy ids).rooms.get ⟨i, h1⟩).bounds = (L.rooms.get ⟨i, h2⟩).bounds ∧
        ((L.copy ids).rooms.get ⟨i, h1⟩).doors = [] ∧
        ((L.copy ids).rooms.get ⟨i, h1⟩).windows = [] ∧
        ((L.copy ids).rooms.get ⟨i, h1⟩).furniture = []) ∧
    (∀ (alloc : ℕ → ℕ → ℕ) (evalPop tops : List (Layout × ℚ)) (B : Layout)
      (s : ℚ) (hist : List ℚ),
      optimizeBest alloc evalPop tops = some (B, s, hist) →
      B.fitness_score = 0) := by
  have heta : ∀ b : Rectangle, (⟨b.x, b.y, b.width, b.height⟩ : Rectangle) = b :=
    fun b => rfl
  constructor
  · intro L ids
    refine ⟨rfl, heta L.bounds, ?_, copyRooms_length ids L.rooms 0, ?_⟩
    · show L.hallways.map (fun h => (⟨h.x, h.y, h.width, h.height⟩ : Rectangle)) =
        L.hallways
      simp [heta]
    · intro i h1 h2
      have hget := copyRooms_get ids L.rooms 0 i h1 h2
      rw [show ((L.copy ids).rooms.get ⟨i, h1⟩ : Room) =
        (copyRooms ids L.rooms 0).get ⟨i, h1⟩ from rfl, hget]
      exact ⟨rfl, rfl, rfl, rfl, rfl⟩
  · intro alloc evalPop tops B s hist hrun
    cases evalPop with
    | nil => simp [optimizeBest] at hrun
    | cons p rest =>
      simp only [optimizeBest, Option.some.injEq, Prod.mk.injEq] at hrun
      obtain ⟨hB, _, _⟩ := hrun
      rw [← hB]
      exact bestLoop_fitness alloc tops 1 (p.1.copy (alloc 0), p.2) rfl

/-- C10 witness: the copy part at a concrete one-room layout and the
optimize part at a concrete one-element population. -/
theorem C10_copy_resets_fitness_witness :
    (plainLayout.copy (fun n => n)).fitness_score = 0 ∧
    emptyLay.fitness_score = 0 :=
  ⟨(C10_copy_resets_fitness.1 plainLayout (fun n => n)).1,
   C10_copy_resets_fitness.2 (fun _ _ => 0) [(emptyLay, 1)] [] emptyLay 1 [] rfl⟩

theorem drawDistinct_length (d : ℕ → ℕ) :
    ∀ (k i : ℕ) (pool : List α), k ≤ pool.length →
      (drawDistinct d i k pool).length = k := by
  intro k
  induction k with
  | zero => intro i pool _; rfl
  | succ k ih =>
    intro i pool h
    cases pool with
    | nil => simp at h
    | cons a t =>
      have hj : d i % (t.length + 1) < (a :: t).length := by
        simpa using Nat.mod_lt (d i) (Nat.succ_pos t.length)
      have herase : ((a :: t).eraseIdx (d i % (t.length + 1))).length = t.length := by
        simp only [List.length_eraseIdx, List.length_cons]
        rw [if_pos (Nat.mod_lt (d i) (Nat.succ_pos t.length))]
        simp
      have hk : k ≤ ((a :: t).eraseIdx (d i % (t.length + 1))).length := by
        rw [herase]
        simpa using h
      simp only [drawDistinct, List.length_cons]
      rw [ih (i + 1) _ hk]

theorem drawDistinct_mem (d : ℕ → ℕ) :
    ∀ (k i : ℕ) (pool : List α), ∀ x ∈ drawDistinct d i k pool, x ∈ pool := by
  intro k
  induction k with
  | zero => intro i pool x hx; simp [drawDistinct] at hx
  | succ k ih =>
    intro i pool x hx
    cases pool with
    | nil => simp [drawDistinct] at hx
    | cons a t =>
      simp only [drawDistinct, List.mem_cons] at hx
      rcases hx with h | h
      · rw [h]; exact List.get_mem _ _ _
      · exact List.eraseIdx_subset _ _ (ih (i + 1) _ x h)

theorem foldl_max_spec :
    ∀ (xs : List (Layout × ℚ)) (acc : Layout × ℚ),
      (xs.foldl (fun a y => if y.2 > a.2 then y else a) acc = acc ∨
        xs.foldl (fun a y => if y.2 > a.2 then y else a) acc ∈ xs) ∧
      acc.2 ≤ (xs.foldl (fun a y => if y.2 > a.2 then y else a) acc).2 ∧
      ∀ x ∈ xs, x.2 ≤ (xs.foldl (fun a y => if y.2 > a.2 then y else a) acc).2 := by
  intro xs
  induction xs with
  | nil => intro acc; exact ⟨Or.inl rfl, le_refl _, by simp⟩
  | cons y ys ih =>
    intro acc
    simp only [List.foldl_cons]
    set acc2 := if y.2 > acc.2 then y else acc with hacc2def
    obtain ⟨hmem, hacc, hall⟩ := ih acc2
    have hacc2 : acc.2 ≤ acc2.2 := by
      rw [hacc2def]
      by_cases hy : y.2 > acc.2
      · rw [if_pos hy]; exact le_of_lt hy
      · rw [if_neg hy]
    have hy2 : y.2 ≤ acc2.2 := by
      rw [hacc2def]
      by_cases hy : y.2 > acc.2
      · rw [if_pos hy]
      · rw [if_neg hy]; exact le_of_not_lt hy
    refine ⟨?_, le_trans hacc2 hacc, ?_⟩
    · rcases hmem with h | h
      · rw [h, hacc2def]
        by_cases hy : y.2 > acc.2
        · rw [if_pos hy]
          exact Or.inr (List.mem_cons_self y ys)
        · rw [if_neg hy]
          exact Or.inl rfl
      · exact Or.inr (List.mem_cons_of_mem y h)
    · intro x hx
      rcases List.mem_cons.mp hx with h | h
      · rw [h]; exact le_trans hy2 hacc
      · exact hall x h

theorem pymaxByScore_spec {l : List (Layout × ℚ)} (h : l ≠ []) :
    ∃ w, pymaxByScore l = some w ∧ w ∈ l ∧ ∀ x ∈ l, x.2 ≤ w.2 := by
  cases l with
  | nil => exact absurd rfl h
  | cons x xs =>
    obtain ⟨hmem, hacc, hall⟩ := foldl_max_spec xs x
    refine ⟨_, rfl, ?_, ?_⟩
    · rcases hmem with h1 | h1
      · rw [h1]; exact List.mem_cons_self x xs
      · exact List.mem_cons_of_mem x h1
    · intro z hz
      rcases List.mem_cons.mp hz with h1 | h1
      · rw [h1]; exact hacc
      · exact hall z h1

theorem omap_get {f : α → Option β} :
    ∀ {l : List α} {ys : List β}, omap f l = some ys →
      ∀ (j : ℕ) (hl : j < l.length) (hy : j < ys.length),
        f (l.get ⟨j, hl⟩) = some (ys.get ⟨j, hy⟩) := by
  intro l
  induction l with
  | nil => intro ys h j hl; simp at hl
  | cons a t ih =>
    intro ys h j hl hy
    simp only [omap, Option.bind_eq_some, Option.map_eq_some'] at h
    obtain ⟨b, hb, bs, hbs, hys⟩ := h
    subst hys
    cases j with
    | zero => simpa using hb
    | succ j => exact ih hbs j (by simpa using hl) (by simpa using hy)

/-- C4 counterexample: with population_size 2 (default elite ratio 0.2) there
is one tournament slot to fill, yet random.sample of 3 from the 2-element
evaluated population raises ValueError — select_parents yields no result at
all, whereas sampling with replacement would fill the slot from any nonempty
population.  The tournament is drawn without replacement, not with
replacement as claimed. -/
theorem C4_tournament_sample_counterexample :
    numParents { population_size := 2 } = 1 ∧
    select_parents { population_size := 2 }
      [({ bounds := ⟨0, 0, 1, 1⟩ }, 1), ({ bounds := ⟨0, 0, 1, 1⟩ }, 2)]
      (fun _ => 0) (fun _ _ => 0) = none := by
  constructor
  · norm_num [numParents, pytrunc]
  · norm_num [select_parents, numParents, numElites, pytrunc, omap, pysample,
      pymaxByScore]

/-- C4 (amended): for an evaluated population of at least 3 (and an elite
count within the population), select_parents succeeds; it fills
int(population_size * (1 - elite_ratio)) slots, each with a deep copy of the
winner — a maximal-score member — of a 3-element tournament drawn from the
population WITHOUT replacement (random.sample), and then appends deep copies
of the first int(population_size * elite_ratio) population entries (the top
scorers, the caller passing the population sorted descending).  With fewer
than 3 individuals the sample raises instead. -/
theorem C4_select_parents_amended (cfg : MonteCarloConfig)
    (pop : List (Layout × ℚ)) (d : ℕ → ℕ) (alloc : ℕ → ℕ → ℕ)
    (h3 : 3 ≤ pop.length) (helite : numElites cfg ≤ pop.length) :
    ∃ sel, select_parents cfg pop d alloc = some sel ∧
      sel.length = numParents cfg + numElites cfg ∧
      (∀ (j : ℕ) (hj : j < numParents cfg) (hjs : j < sel.length),
        ∃ t : List (Layout × ℚ), t.length = 3 ∧ (∀ x ∈ t, x ∈ pop) ∧
          ∃ w, w ∈ t ∧ (∀ x ∈ t, x.2 ≤ w.2) ∧
            sel.get ⟨j, hjs⟩ = w.1.copy (alloc j)) ∧
      (∀ (i : ℕ) (hi : i < numElites cfg)
        (his : numParents cfg + i < sel.length) (hip : i < pop.length),
        sel.get ⟨numParents cfg + i, his⟩ =
          (pop.get ⟨i, hip⟩).1.copy (alloc (numParents cfg + i))) := by
  have hslot : ∀ j : ℕ, ((pysample pop 3 fun i => d (3 * j + i)).bind fun t =>
      (pymaxByScore t).map fun w => w.1.copy (alloc j)).isSome := by
    intro j
    have hsamp : pysample pop 3 (fun i => d (3 * j + i)) =
        some (drawDistinct (fun i => d (3 * j + i)) 0 3 pop) := by
     simp [pysample, h3]
    have hlen3 : (drawDistinct (fun i => d (3 * j + i)) 0 3 pop).length = 3 :=
      drawDistinct_length _ 3 0 pop h3
    have hne : drawDistinct (fun i => d (3 * j + i)) 0 3 pop ≠ [] := by
      intro hc
      rw [hc] at hlen3
      simp at hlen3
    obtain ⟨w, hw, _, _⟩ := pymaxByScore_spec hne
    simp [hsamp, hw]
  obtain ⟨slots, hslots⟩ := Option.isSome_iff_exists.mp
    (omap_isSome (f := fun j => (pysample pop 3 fun i => d (3 * j + i)).bind
      fun t => (pymaxByScore t).map fun w => w.1.copy (alloc j))
      (l := List.range (numParents cfg)) (fun j _ => hslot j))
  have helem : ∀ i : ℕ, i < numElites cfg →
      ((pop[i]?).map fun p => p.1.copy (alloc (numParents cfg + i))).isSome := by
    intro i hi
    have : i < pop.length := lt_of_lt_of_le hi helite
    simp [List.getElem?_eq_getElem this]
  obtain ⟨elites, helites⟩ := Option.isSome_iff_exists.mp
    (omap_isSome (f := fun i => (pop[i]?).map fun p =>
      p.1.copy (alloc (numParents cfg + i)))
      (l := List.range (numElites cfg)) (fun i hi => helem i (List.mem_range.mp hi)))
  have hslots_len : slots.length = numParents cfg := by
    have := omap_eq_some_length hslots
    simpa using this
  have helites_len : elites.length = numElites cfg := by
    have := omap_eq_some_length helites
    simpa using this
  refine ⟨slots ++ elites, ?_, by simp [hslots_len, helites_len], ?_, ?_⟩
  · simp [select_parents, hslots, helites]
  · intro j hj hjs
    have hjr : j < (List.range (numParents cfg)).length := by simpa using hj
    have hjsl : j < slots.length := by omega
    have hg := omap_get hslots j hjr hjsl
    rw [List.get_range] at hg
    have hsamp : pysample pop 3 (fun i => d (3 * j + i)) =
        some (drawDistinct (fun i => d (3 * j + i)) 0 3 pop) := by
      simp [pysample, h3]
    have hlen3 : (drawDistinct (fun i => d (3 * j + i)) 0 3 pop).length = 3 :=
      drawDistinct_length _ 3 0 pop h3
    have hne : drawDistinct (fun i => d (3 * j + i)) 0 3 pop ≠ [] := by
      intro hc
      rw [hc] at hlen3
      simp at hlen3
    obtain ⟨w, hw, hwmem, hwmax⟩ := pymaxByScore_spec hne
    rw [hsamp] at hg
    simp only [Option.some_bind, hw, Option.map_some', Option.some.injEq] at hg
    refine ⟨drawDistinct (fun i => d (3 * j + i)) 0 3 pop, hlen3,
      fun x hx => drawDistinct_mem _ 3 0 pop x hx, w, hwmem, hwmax, ?_⟩
    rw [show (slots ++ elites).get ⟨j, hjs⟩ = slots.get ⟨j, hjsl⟩ from
      List.get_append j hjsl, ← hg]
  · intro i hi his hip
    have hir : i < (List.range (numElites cfg)).length := by simpa using hi
    have hiel : i < elites.length := by omega
    have hg := omap_get helites i hir hiel
    rw [List.get_range] at hg
    simp only [List.getElem?_eq_getElem hip, Option.map_some',
      Option.some.injEq] at hg
    have hval : numParents cfg + i = slots.length + i := by rw [hslots_len]
    have his' : slots.length + i < (slots ++ elites).length := hval ▸ his
    have happ : (slots ++ elites).get ⟨numParents cfg + i, his⟩ =
        elites.get ⟨i, hiel⟩ := by
      rw [show (⟨numParents cfg + i, his⟩ : Fin (slots ++ elites).length) =
        ⟨slots.length + i, his'⟩ from Fin.ext hval]
      simp [List.getElem_append_right]
    rw [happ, ← hg]
    rfl

theorem C4_select_parents_amended_witness :
    (select_parents { population_size := 3 }
      [({ bounds := ⟨0, 0, 1, 1⟩ }, 1), ({ bounds := ⟨0, 0, 1, 1⟩ }, 2),
       ({ bounds := ⟨0, 0, 1, 1⟩ }, 3)]
      (fun _ => 0) (fun _ _ => 0)).isSome := by
  obtain ⟨sel, hsel, -⟩ := C4_select_parents_amended { population_size := 3 }
    [({ bounds := ⟨0, 0, 1, 1⟩ }, 1), ({ bounds := ⟨0, 0, 1, 1⟩ }, 2),
     ({ bounds := ⟨0, 0, 1, 1⟩ }, 3)]
    (fun _ => 0) (fun _ _ => 0) (by norm_num)
    (by norm_num [numElites, pytrunc])
  simp [hsel]

theorem crossoverPickLoop_isSome (p1r p2r : List Room) :
    ∀ (c i : ℕ) (r : RandSrc), (crossoverPickLoop p1r p2r c i r).isSome := by
  intro c
  induction c with
  | zero => intro i r; simp [crossoverPickLoop]
  | succ c ih =>
    intro i r
    simp only [crossoverPickLoop]
    by_cases h1 : r.nextQ.1 < 0.5 ∧ p1r ≠ []
    · rw [if_pos h1]
      have hlt : i % p1r.length < p1r.length :=
        Nat.mod_lt _ (List.length_pos.mpr h1.2)
      rw [List.getElem?_eq_getElem hlt]
      simpa using ih (i + 1) r.nextQ.2
    · rw [if_neg h1]
      by_cases h2 : p2r ≠ []
      · rw [if_pos h2]
        have hlt : i % p2r.length < p2r.length :=
          Nat.mod_lt _ (List.length_pos.mpr h2)
        rw [List.getElem?_eq_getElem hlt]
        simpa using ih (i + 1) r.nextQ.2
      · rw [if_neg h2]
        exact ih (i + 1) r.nextQ.2

theorem crossoverPickLoop_QRange (p1r p2r : List Room) :
    ∀ (c i : ℕ) (r : RandSrc) res, r.QRange →
      crossoverPickLoop p1r p2r c i r = some res → res.2.QRange := by
  intro c
  induction c with
  | zero =>
    intro i r res hr h
    simp only [crossoverPickLoop, Option.some.injEq] at h
    rw [← h]
    exact hr
  | succ c ih =>
    intro i r res hr h
    simp only [crossoverPickLoop] at h
    by_cases h1 : r.nextQ.1 < 0.5 ∧ p1r ≠ []
    · rw [if_pos h1, Option.bind_eq_some] at h
      obtain ⟨room, hroom, h⟩ := h
      rw [Option.map_eq_some'] at h
      obtain ⟨rest, hrest, hres⟩ := h
      rw [← hres]
      exact ih (i + 1) r.nextQ.2 rest hr.nextQ hrest
    · rw [if_neg h1] at h
      by_cases h2 : p2r ≠ []
      · rw [if_pos h2, Option.bind_eq_some] at h
        obtain ⟨room, hroom, h⟩ := h
        rw [Option.map_eq_some'] at h
        obtain ⟨rest, hrest, hres⟩ := h
        rw [← hres]
        exact ih (i + 1) r.nextQ.2 rest hr.nextQ hrest
      · rw [if_neg h2] at h
        exact ih (i + 1) r.nextQ.2 res hr.nextQ h

theorem crossoverPickLoop_nil_nil :
    ∀ (c i : ℕ) (r : RandSrc) res,
      crossoverPickLoop [] [] c i r = some res → res.1 = [] := by
  intro c
  induction c with
  | zero =>
    intro i r res h
    simp only [crossoverPickLoop, Option.some.injEq] at h
    rw [← h]
  | succ c ih =>
    intro i r res h
    simp only [crossoverPickLoop] at h
    rw [if_neg (by simp), if_neg (by simp)] at h
    exact ih (i + 1) r.nextQ.2 res h

theorem crossoverPickLoop_mem (p1r p2r : List Room) :
    ∀ (c i : ℕ) (r : RandSrc) res,
      crossoverPickLoop p1r p2r c i r = some res →
      ∀ x ∈ res.1, x ∈ p1r ∨ x ∈ p2r := by
  intro c
  induction c with
  | zero =>
    intro i r res h x hx
    simp only [crossoverPickLoop, Option.some.injEq] at h
    rw [← h] at hx
    simp at hx
  | succ c ih =>
    intro i r res h x hx
    simp only [crossoverPickLoop] at h
    by_cases h1 : r.nextQ.1 < 0.5 ∧ p1r ≠ []
    · rw [if_pos h1, Option.bind_eq_some] at h
      obtain ⟨room, hroom, h⟩ := h
      rw [Option.map_eq_some'] at h
      obtain ⟨rest, hrest, hres⟩ := h
      rw [← hres] at hx
      rcases List.mem_cons.mp hx with hx | hx
      · exact Or.inl (hx ▸ List.getElem?_mem hroom)
      · exact ih (i + 1) r.nextQ.2 rest hrest x hx
    · rw [if_neg h1] at h
      by_cases h2 : p2r ≠ []
      · rw [if_pos h2, Option.bind_eq_some] at h
        obtain ⟨room, hroom, h⟩ := h
        rw [Option.map_eq_some'] at h
        obtain ⟨rest, hrest, hres⟩ := h
        rw [← hres] at hx
        rcases List.mem_cons.mp hx with hx | hx
        · exact Or.inr (hx ▸ List.getElem?_mem hroom)
        · exact ih (i + 1) r.nextQ.2 rest hrest x hx
      · rw [if_neg h2] at h
        exact ih (i + 1) r.nextQ.2 res h x hx

theorem crossoverTypesLoop_some (parent1 parent2 : Layout) (addr : ℕ → ℕ) :
    ∀ (reqs : List (RoomType × ℕ)) (child : Layout) (apos : ℕ) (r : RandSrc),
      r.QRange →
      ∃ res, crossoverTypesLoop parent1 parent2 addr reqs child apos r =
        some res ∧ res.2.2.QRange := by
  intro reqs
  induction reqs with
  | nil =>
    intro child apos r hr
    exact ⟨(child, apos, r), rfl, hr⟩
  | cons p rest ih =>
    intro child apos r hr
    obtain ⟨pick, hpick⟩ := Option.isSome_iff_exists.mp
      (crossoverPickLoop_isSome (parent1.get_rooms_by_type p.1)
        (parent2.get_rooms_by_type p.1) p.2 0 r)
    have hq : pick.2.QRange :=
      crossoverPickLoop_QRange _ _ p.2 0 r pick hr hpick
    obtain ⟨res, hres, hresq⟩ := ih
      ((pick.1.take p.2).foldl (fun (ch : Layout × ℕ) room =>
        (ch.1.add_room (Room.create room.room_type room.bounds 0 none
          (addr ch.2)), ch.2 + 1)) (child, apos)).1
      ((pick.1.take p.2).foldl (fun (ch : Layout × ℕ) room =>
        (ch.1.add_room (Room.create room.room_type room.bounds 0 none
          (addr ch.2)), ch.2 + 1)) (child, apos)).2
      pick.2 hq
    refine ⟨res, ?_, hresq⟩
    simp only [crossoverTypesLoop, hpick, Option.some_bind]
    exact hres

theorem mutateAddRemove_isSome {sq : ℚ → ℚ} {addr : ℕ → ℕ} {apos : ℕ}
    {mutated : Layout} {bounds : Rectangle} {reqs : List (RoomType × ℕ)}
    {r : RandSrc} (hsq : ∀ x : ℚ, 0 < x → 0 < sq x) (hr : r.QRange)
    (hreq : reqs ≠ []) :
    (mutateAddRemove sq addr apos mutated bounds reqs r).isSome := by
  unfold mutateAddRemove
  by_cases hlen : mutated.rooms.length ≥ 2
  · rw [if_pos hlen]
    simp only [RandSrc.nextN]
    have hm : r.ns 1 % reqs.length < reqs.length :=
      Nat.mod_lt _ (List.length_pos.mpr hreq)
    rw [List.getElem?_eq_getElem hm]
    simp only [Option.some_bind]
    have hr2 : (⟨r.qs, fun n => r.ns (n + 1 + 1)⟩ : RandSrc).QRange := hr
    obtain ⟨wh, hwh⟩ := generate_random_size_some hsq hr2
      (roomTemplates_pos _).1 (roomTemplates_pos _).2.1
      (roomTemplates_pos _).2.2.1 (roomTemplates_pos _).2.2.2
    rw [hwh]
    simp
  · rw [if_neg hlen]
    simp

theorem mutate_isSome {sq : ℚ → ℚ} {addr : ℕ → ℕ} {apos : ℕ}
    {layout : Layout} {bounds : Rectangle} {reqs : List (RoomType × ℕ)}
    {r : RandSrc} (hsq : ∀ x : ℚ, 0 < x → 0 < sq x) (hr : r.QRange)
    (hreq : reqs ≠ []) :
    (mutate sq addr apos layout bounds reqs r).isSome := by
  unfold mutate
  simp only [RandSrc.nextN]
  rcases hmt : r.ns 0 % 4 with _ | _ | _ | n
  · simp only [hmt]
    simp
  · simp only [hmt]
    simp
  · simp only [hmt]
    simp
  · simp only [hmt]
    exact mutateAddRemove_isSome hsq hr hreq

theorem crossover_isSome {cfg : MonteCarloConfig} {sq : ℚ → ℚ} {addr : ℕ → ℕ}
    {apos : ℕ} {parent1 parent2 : Layout} {bounds : Rectangle}
    {reqs : List (RoomType × ℕ)} {r : RandSrc}
    (hsq : ∀ x : ℚ, 0 < x → 0 < sq x) (hr : r.QRange) (hreq : reqs ≠ []) :
    (crossover cfg sq addr apos parent1 parent2 bounds reqs r).isSome := by
  obtain ⟨res, hres, hresq⟩ := crossoverTypesLoop_some parent1 parent2 addr
    reqs { bounds := bounds } apos r hr
  unfold crossover
  rw [hres]
  simp only [Option.some_bind]
  by_cases hc : res.2.2.nextQ.1 < cfg.mutation_rate
  · rw [if_pos hc]
    exact mutate_isSome hsq hresq.nextQ hreq
  · rw [if_neg hc]
    simp

theorem generate_offspring_loop_mem (mk : ℕ → Option Layout) (popsize : ℕ) :
    ∀ (fuel attempt : ℕ) (acc : List Layout),
      ∀ L ∈ generate_offspring_loop mk popsize fuel attempt acc,
        L ∈ acc ∨ ∃ a, mk a = some L := by
  intro fuel
  induction fuel with
  | zero =>
    intro attempt acc L hL
    simp only [generate_offspring_loop] at hL
    exact Or.inl hL
  | succ fuel ih =>
    intro attempt acc L hL
    simp only [generate_offspring_loop] at hL
    by_cases hacc : acc.length < popsize
    · rw [if_pos hacc] at hL
      cases hmk : mk attempt with
      | some child =>
        simp only [hmk] at hL
        rcases ih (attempt + 1) (acc ++ [child]) L hL with h | h
        · rcases List.mem_append.mp h with h | h
          · exact Or.inl h
          · simp only [List.mem_singleton] at h
            exact Or.inr ⟨attempt, h ▸ hmk⟩
        · exact Or.inr h
      | none =>
        simp only [hmk] at hL
        exact ih (attempt + 1) acc L hL
    · rw [if_neg hacc] at hL
      exact Or.inl hL

/-- A parent holding one living room, for probing the crossover fallback. -/
def crossP1 : Layout :=
  { bounds := ⟨0, 0, 20, 15⟩
    rooms := [Room.create RoomType.living_room ⟨0, 0, 5, 4⟩ 0 none 7] }

/-- A parent with no rooms at all. -/
def crossP2 : Layout := { bounds := ⟨0, 0, 20, 15⟩ }

/-- An oracle whose every random.random output is 0.6. -/
def rHigh : RandSrc := ⟨fun _ => 0.6, fun _ => 0⟩

/-- C6 counterexample: requirements ask for one living room; parent1 has a
living room and parent2 has none, yet with coin draws of 0.6 (≥ 0.5) the
crossover succeeds with a child holding NO rooms — the instance is silently
omitted instead of falling back to parent1, the parent that has rooms of the
type.  The fallback is asymmetric: only the parent1 branch is coin-gated,
and a failed coin with an empty parent2 pool skips the instance. -/
theorem C6_crossover_fallback_counterexample :
    crossP1.get_rooms_by_type RoomType.living_room ≠ [] ∧
    (crossover {} (fun q => q) (fun _ => 0) 0 crossP1 crossP2 ⟨0, 0, 20, 15⟩
        [(RoomType.living_room, 1)] rHigh).map (fun res => res.1.rooms) =
      some [] := by
  constructor
  · norm_num [Layout.get_rooms_by_type, crossP1, Room.create]
  · norm_num [crossover, crossoverTypesLoop, crossoverPickLoop,
      Layout.get_rooms_by_type, crossP1, crossP2, rHigh, RandSrc.nextQ,
      Room.create, Layout.add_room]

/-- C6 (amended): the crossover try body raises no exception when the
requirement dict is nonempty (given random outputs in [0,1) and a square
root positive on positive inputs): in particular the cyclic room accesses
never go out of range, whatever the requested counts.  The per-instance
choice however is asymmetric: a coin below 0.5 takes parent1 when parent1
has rooms of the type, OTHERWISE the instance comes from parent2 when
parent2 has rooms of the type, and is omitted when parent2 has none — even
when parent1 has rooms of the type.  With both pools empty every instance is
omitted, and every chosen room comes from one of the two pools.  The
offspring loop discards failed (None) attempts and retries, so every
offspring stems from a successful attempt and at most population_size are
returned. -/
theorem C6_crossover_amended (cfg : MonteCarloConfig) (sq : ℚ → ℚ)
    (addr : ℕ → ℕ) (apos : ℕ) (parent1 parent2 : Layout) (bounds : Rectangle)
    (reqs : List (RoomType × ℕ)) (r : RandSrc)
    (hsq : ∀ x : ℚ, 0 < x → 0 < sq x) (hr : r.QRange) (hreq : reqs ≠ []) :
    (crossover cfg sq addr apos parent1 parent2 bounds reqs r).isSome ∧
    (∀ (p1r p2r : List Room) (c i : ℕ) (r2 : RandSrc),
      (crossoverPickLoop p1r p2r c i r2).isSome) ∧
    (∀ (c i : ℕ) (r2 : RandSrc) res,
      crossoverPickLoop [] [] c i r2 = some res → res.1 = []) ∧
    (∀ (p1r p2r : List Room) (c i : ℕ) (r2 : RandSrc) res,
      crossoverPickLoop p1r p2r c i r2 = some res →
      ∀ x ∈ res.1, x ∈ p1r ∨ x ∈ p2r) ∧
    (∀ (mk : ℕ → Option Layout) (popsize fuel : ℕ),
      (generate_offspring mk popsize fuel).length ≤ popsize ∧
      ∀ L ∈ generate_offspring mk popsize fuel, ∃ a, mk a = some L) := by
  refine ⟨crossover_isSome hsq hr hreq,
    fun p1r p2r c i r2 => crossoverPickLoop_isSome p1r p2r c i r2,
    fun c i r2 res h => crossoverPickLoop_nil_nil c i r2 res h,
    fun p1r p2r c i r2 res h => crossoverPickLoop_mem p1r p2r c i r2 res h,
    fun mk popsize fuel => ⟨List.length_take_le _ _, fun L hL => ?_⟩⟩
  rcases generate_offspring_loop_mem mk popsize fuel 0 [] L
      (List.mem_of_mem_take hL) with h | h
  · simp at h
  · exact h

theorem C6_crossover_amended_witness :
    (crossover {} (fun q => q) (fun _ => 0) 0 { bounds := ⟨0, 0, 1, 1⟩ }
      { bounds := ⟨0, 0, 1, 1⟩ } ⟨0, 0, 20, 15⟩ [(RoomType.living_room, 1)]
      ⟨fun _ => 0, fun _ => 0⟩).isSome :=
  (C6_crossover_amended {} (fun q => q) (fun _ => 0) 0
    { bounds := ⟨0, 0, 1, 1⟩ } { bounds := ⟨0, 0, 1, 1⟩ } ⟨0, 0, 20, 15⟩
    [(RoomType.living_room, 1)] ⟨fun _ => 0, fun _ => 0⟩
    (fun x hx => hx) (fun n => by norm_num) (by simp)).1
